import Mathlib

/-!
Verification of the swanling load-testing engine's scheduler, user loop,
controller and configuration code against its specification.

The definitions below are shallow embeddings of the Rust source:
 - task scheduling: `allocate_tasks`, `weight_unsequenced_tasks`,
   `weight_sequenced_tasks`, `schedule_unsequenced_tasks`,
   `schedule_sequenced_tasks` (src/lib.rs);
 - task-set allocation: `allocate_task_sets`, `weight_task_set_users`
   (src/lib.rs);
 - user main loop wait/sleep behaviour (src/user.rs);
 - controller request handling (src/controller.rs);
 - throttle setup and coordinated-omission option validation (src/lib.rs).

Rust `usize` values are modelled as `Nat` (all arithmetic involved is
small and never overflows), `Vec` as `List`, `BTreeMap` as a sorted
association list, and fallible or random operations are made explicit.
-/

/-- Scheduler policies, from `enum SwanlingScheduler` in src/lib.rs. -/
inductive SwanlingScheduler
  | RoundRobin
  | Serial
  | Random
  deriving DecidableEq, Repr

/-- One registered task of a task set. The struct itself lives in the
`swanling` module (not under src/); the fields are the ones read by
`allocate_tasks` and `user_main`: the task's index in the owning set's
`tasks` vector, its display name, weight, sequence value, and the
`on_start` / `on_stop` flags. -/
structure SwanlingTask where
  tasks_index : Nat
  name : String
  weight : Nat
  sequence : Nat
  on_start : Bool
  on_stop : Bool
  deriving DecidableEq, Repr, Inhabited

/-- One task set. The struct lives in the `swanling` module (not under
src/); the fields are the ones read by `allocate_task_sets`,
`weight_task_set_users` and `allocate_tasks` in src/lib.rs. -/
structure SwanlingTaskSet where
  name : String
  task_sets_index : Nat
  weight : Nat
  min_wait : Nat
  max_wait : Nat
  tasks : List SwanlingTask
  deriving DecidableEq, Repr, Inhabited

/-- Greatest-common-divisor fold performed at the top of `allocate_tasks`
in src/lib.rs: `u` starts at 0, takes the first weight, then repeatedly
`u = util::gcd(u, v)` (the `util::gcd` helper, outside src/, is Euclid's
algorithm, i.e. `Nat.gcd`). -/
def tasks_gcd (tasks : List SwanlingTask) : Nat :=
  tasks.foldl (fun u task => if u = 0 then task.weight else Nat.gcd u task.weight) 0

/-- The six grouping collections built by the first loop of
`allocate_tasks`: a `BTreeMap<usize, Vec<SwanlingTask>>` per sequenced
category (modelled as an association list sorted by sequence key) and a
`Vec<SwanlingTask>` per unsequenced category. -/
structure GroupedTasks where
  sequenced_tasks : List (Nat × List SwanlingTask)
  sequenced_on_start_tasks : List (Nat × List SwanlingTask)
  sequenced_on_stop_tasks : List (Nat × List SwanlingTask)
  unsequenced_tasks : List SwanlingTask
  unsequenced_on_start_tasks : List SwanlingTask
  unsequenced_on_stop_tasks : List SwanlingTask
  deriving Repr

/-- Insertion into a `BTreeMap<usize, Vec<SwanlingTask>>` as performed by
`allocate_tasks`: push onto the existing vector for the key, or insert a
new singleton vector, keeping keys in ascending order (the BTreeMap
iterates in ascending key order). -/
def btree_insert (m : List (Nat × List SwanlingTask)) (k : Nat) (t : SwanlingTask) :
    List (Nat × List SwanlingTask) :=
  match m with
  | [] => [(k, [t])]
  | (kx, ts) :: rest =>
    if k = kx then (kx, ts ++ [t]) :: rest
    else if k < kx then (k, [t]) :: (kx, ts) :: rest
    else (kx, ts) :: btree_insert rest k t

/-- One iteration of the grouping loop of `allocate_tasks`: dispatch a
task into the sequenced/unsequenced start/stop/main collections according
to its `sequence`, `on_start` and `on_stop` fields. A task may be both
`on_start` and `on_stop`; only a task with neither flag goes into the
main collections. -/
def group_task (g : GroupedTasks) (task : SwanlingTask) : GroupedTasks :=
  if task.sequence > 0 then
    let g1 := if task.on_start then
      { g with sequenced_on_start_tasks := btree_insert g.sequenced_on_start_tasks task.sequence task }
      else g
    let g2 := if task.on_stop then
      { g1 with sequenced_on_stop_tasks := btree_insert g1.sequenced_on_stop_tasks task.sequence task }
      else g1
    if !task.on_start && !task.on_stop then
      { g2 with sequenced_tasks := btree_insert g2.sequenced_tasks task.sequence task }
    else g2
  else
    let g1 := if task.on_start then
      { g with unsequenced_on_start_tasks := g.unsequenced_on_start_tasks ++ [task] }
      else g
    let g2 := if task.on_stop then
      { g1 with unsequenced_on_stop_tasks := g1.unsequenced_on_stop_tasks ++ [task] }
      else g1
    if !task.on_start && !task.on_stop then
      { g2 with unsequenced_tasks := g2.unsequenced_tasks ++ [task] }
    else g2

/-- The grouping loop of `allocate_tasks` over all tasks of the set. -/
def group_tasks (tasks : List SwanlingTask) : GroupedTasks :=
  tasks.foldl group_task ⟨[], [], [], [], [], []⟩

/-- Translation of `weight_unsequenced_tasks` (src/lib.rs): build one
bucket `vec![task.tasks_index; task.weight / u]` per task, returning the
buckets together with the total number of entries. -/
def weight_unsequenced_tasks (unsequenced_tasks : List SwanlingTask) (u : Nat) :
    List (List Nat) × Nat :=
  unsequenced_tasks.foldl
    (fun acc task =>
      let weight := task.weight / u
      (acc.1 ++ [List.replicate weight task.tasks_index], acc.2 + weight))
    ([], 0)

/-- Translation of `weight_sequenced_tasks` (src/lib.rs): weight each
sequence bucket through `weight_unsequenced_tasks`, keeping the key. -/
def weight_sequenced_tasks (sequenced_tasks : List (Nat × List SwanlingTask)) (u : Nat) :
    List (Nat × List (List Nat)) :=
  sequenced_tasks.map (fun p => (p.1, (weight_unsequenced_tasks p.2 u).1))

/-- One pass of the round-robin loop in `schedule_unsequenced_tasks`:
`Vec::pop` one element (the last) from each nonempty bucket, in bucket
order, returning the popped elements and the remaining buckets. -/
def rrPass (buckets : List (List Nat)) : List Nat × List (List Nat) :=
  match buckets with
  | [] => ([], [])
  | b :: rest =>
    let r := rrPass rest
    match b.getLast? with
    | some x => (x :: r.1, b.dropLast :: r.2)
    | none => (r.1, b :: r.2)

/-- The round-robin `loop` of `schedule_unsequenced_tasks`: repeat full
passes, after each pass stopping as soon as the accumulated output length
reaches `total_tasks`. The Rust loop has no fuel; callers below supply
fuel large enough that it is never exhausted on the executions the source
can perform (the source loop diverges in exactly the states where the
fuel runs out). -/
def rrLoop : Nat → List (List Nat) → Nat → List Nat → List Nat
  | 0, _, _, acc => acc
  | fuel + 1, buckets, total_tasks, acc =>
    let p := rrPass buckets
    let acc2 := acc ++ p.1
    if total_tasks ≤ acc2.length then acc2
    else rrLoop fuel p.2 total_tasks acc2

/-- Total number of entries across buckets. -/
def bucketsLen (buckets : List (List Nat)) : Nat :=
  (buckets.map List.length).sum

/-- Translation of `schedule_unsequenced_tasks` (src/lib.rs). The
`Random` branch shuffles each bucket with `shuffle(&mut thread_rng())`,
modelled by the explicit shuffle parameter `sh`; theorems assume only
that `sh` permutes its input. -/
def schedule_unsequenced_tasks (sh : List Nat → List Nat)
    (available_unsequenced_tasks : List (List Nat)) (total_tasks : Nat)
    (scheduler : SwanlingScheduler) : List Nat :=
  match scheduler with
  | SwanlingScheduler.RoundRobin =>
    rrLoop (total_tasks + bucketsLen available_unsequenced_tasks + 1)
      available_unsequenced_tasks total_tasks []
  | SwanlingScheduler.Serial | SwanlingScheduler.Random =>
    available_unsequenced_tasks.foldl
      (fun acc tasks =>
        let tasks_clone := if scheduler = SwanlingScheduler.Random then sh tasks else tasks
        acc ++ tasks_clone)
      []

/-- Translation of `schedule_sequenced_tasks` (src/lib.rs): schedule each
sequence bucket in ascending key order; note the `total_tasks` argument
passed for each group is `tasks[0].len()`, the length of the group's
FIRST bucket, not the group total. -/
def schedule_sequenced_tasks (sh : List Nat → List Nat)
    (available_sequenced_tasks : List (Nat × List (List Nat)))
    (scheduler : SwanlingScheduler) : List Nat :=
  available_sequenced_tasks.foldl
    (fun acc p =>
      acc ++ schedule_unsequenced_tasks sh p.2 (p.2.headD []).length scheduler)
    []

/-- Name lookup `task_set.tasks[*task].name` used when building the final
(task id, task name) tuples of `allocate_tasks`. -/
def task_name (task_set : SwanlingTaskSet) (i : Nat) : String :=
  (task_set.tasks.getD i default).name

/-- Translation of `allocate_tasks` (src/lib.rs): group the tasks, reduce
weights by the gcd of all task weights, schedule sequenced groups first
(ascending by sequence) then unsequenced tasks, and return the three
lists `(on_start_tasks, tasks, on_stop_tasks)` of (id, name) pairs. -/
def allocate_tasks (sh : List Nat → List Nat) (task_set : SwanlingTaskSet)
    (scheduler : SwanlingScheduler) :
    List (Nat × String) × List (Nat × String) × List (Nat × String) :=
  let g := group_tasks task_set.tasks
  let u := tasks_gcd task_set.tasks
  let weighted_sequenced_on_start_tasks := weight_sequenced_tasks g.sequenced_on_start_tasks u
  let weighted_sequenced_tasks := weight_sequenced_tasks g.sequenced_tasks u
  let weighted_sequenced_on_stop_tasks := weight_sequenced_tasks g.sequenced_on_stop_tasks u
  let weighted_unsequenced_on_start := weight_unsequenced_tasks g.unsequenced_on_start_tasks u
  let weighted_unsequenced := weight_unsequenced_tasks g.unsequenced_tasks u
  let weighted_unsequenced_on_stop := weight_unsequenced_tasks g.unsequenced_on_stop_tasks u
  let scheduled_sequenced_on_start_tasks :=
    schedule_sequenced_tasks sh weighted_sequenced_on_start_tasks scheduler
  let scheduled_sequenced_tasks :=
    schedule_sequenced_tasks sh weighted_sequenced_tasks scheduler
  let scheduled_sequenced_on_stop_tasks :=
    schedule_sequenced_tasks sh weighted_sequenced_on_stop_tasks scheduler
  let scheduled_unsequenced_on_start_tasks :=
    schedule_unsequenced_tasks sh weighted_unsequenced_on_start.1
      weighted_unsequenced_on_start.2 scheduler
  let scheduled_unsequenced_tasks :=
    schedule_unsequenced_tasks sh weighted_unsequenced.1 weighted_unsequenced.2 scheduler
  let scheduled_unsequenced_on_stop_tasks :=
    schedule_unsequenced_tasks sh weighted_unsequenced_on_stop.1
      weighted_unsequenced_on_stop.2 scheduler
  let on_start_tasks :=
    (scheduled_sequenced_on_start_tasks ++ scheduled_unsequenced_on_start_tasks).map
      (fun i => (i, task_name task_set i))
  let tasks :=
    (scheduled_sequenced_tasks ++ scheduled_unsequenced_tasks).map
      (fun i => (i, task_name task_set i))
  let on_stop_tasks :=
    (scheduled_sequenced_on_stop_tasks ++ scheduled_unsequenced_on_stop_tasks).map
      (fun i => (i, task_name task_set i))
  (on_start_tasks, tasks, on_stop_tasks)

/-- Gcd fold performed at the top of `allocate_task_sets` (src/lib.rs),
identical in structure to the one in `allocate_tasks` but over task-set
weights. -/
def task_sets_gcd (task_sets : List SwanlingTaskSet) : Nat :=
  task_sets.foldl (fun u ts => if u = 0 then ts.weight else Nat.gcd u ts.weight) 0

/-- Bucket construction of `allocate_task_sets`: one bucket
`vec![index; weight / u]` per task set, where `index` is the position of
the set in `self.task_sets`, together with the total entry count. -/
def weight_task_sets (task_sets : List SwanlingTaskSet) (u : Nat) :
    List (List Nat) × Nat :=
  task_sets.enum.foldl
    (fun acc p =>
      let weight := p.2.weight / u
      (acc.1 ++ [List.replicate weight p.1], acc.2 + weight))
    ([], 0)

/-- The `Random` branch of `allocate_task_sets` repeatedly calls
`choose_mut` on the outer vector and pops from the chosen bucket until
enough entries are emitted. The random choice is modelled by the oracle
`choose`, which returns the index of the chosen bucket (or none when the
outer vector is empty, in which case the source only warns and retries).
Fuel makes the retry loop total. -/
def randomSetLoop (choose : List (List Nat) → Option Nat) :
    Nat → List (List Nat) → Nat → List Nat → List Nat
  | 0, _, _, acc => acc
  | fuel + 1, buckets, total, acc =>
    match choose buckets with
    | none =>
      if total ≤ acc.length then acc else randomSetLoop choose fuel buckets total acc
    | some i =>
      let bucket := buckets.getD i []
      match bucket.getLast? with
      | some x =>
        let acc2 := acc ++ [x]
        let buckets2 := buckets.set i bucket.dropLast
        if total ≤ acc2.length then acc2 else randomSetLoop choose fuel buckets2 total acc2
      | none =>
        if total ≤ acc.length then acc else randomSetLoop choose fuel buckets total acc

/-- Translation of `allocate_task_sets` (src/lib.rs): reduce weights by
the gcd, then emit task-set positions round-robin, serially, or randomly
(via the `choose` oracle). The round-robin loop is the same loop shape as
in `schedule_unsequenced_tasks` and reuses `rrLoop`. -/
def allocate_task_sets (choose : List (List Nat) → Option Nat)
    (task_sets : List SwanlingTaskSet) (scheduler : SwanlingScheduler) : List Nat :=
  let u := task_sets_gcd task_sets
  let available := weight_task_sets task_sets u
  match scheduler with
  | SwanlingScheduler.RoundRobin =>
    rrLoop (available.2 + bucketsLen available.1 + 1) available.1 available.2 []
  | SwanlingScheduler.Serial =>
    available.1.foldl (fun acc task_sets => acc ++ task_sets) []
  | SwanlingScheduler.Random =>
    randomSetLoop choose (available.2 + bucketsLen available.1 + 1) available.1 available.2 []

/-- The per-user state constructed by `SwanlingUser::new` in
`weight_task_set_users`; the struct lives in the `swanling` module (not
under src/). Only the fields read by the claims are modelled: the task
set's `task_sets_index` and its wait-time bounds. -/
structure SwanlingUser where
  task_sets_index : Nat
  min_wait : Nat
  max_wait : Nat
  deriving DecidableEq, Repr, Inhabited

/-- Construction of one user from the task set at position `i`, as in the
body of the `weight_task_set_users` loop. -/
def mkUser (task_sets : List SwanlingTaskSet) (i : Nat) : SwanlingUser :=
  let ts := task_sets.getD i default
  { task_sets_index := ts.task_sets_index, min_wait := ts.min_wait, max_wait := ts.max_wait }

/-- Inner `for` loop of `weight_task_set_users`: walk the weighted
task-set list once, pushing one user per entry, returning early (flag
`true`) as soon as `user_count >= users`. -/
def fillUsersInner (task_sets : List SwanlingTaskSet) (users : Nat) :
    List Nat → List SwanlingUser → List SwanlingUser × Bool
  | [], acc => (acc, false)
  | i :: rest, acc =>
    let acc2 := acc ++ [mkUser task_sets i]
    if users ≤ acc2.length then (acc2, true)
    else fillUsersInner task_sets users rest acc2

/-- Outer `loop` of `weight_task_set_users`: cycle over the weighted
task-set list until `users` users are created. The source loop diverges
when the weighted list is empty; fuel makes the model total. -/
def fillUsersLoop (task_sets : List SwanlingTaskSet) (users : Nat) :
    Nat → List Nat → List SwanlingUser → List SwanlingUser
  | 0, _, acc => acc
  | fuel + 1, weighted, acc =>
    let r := fillUsersInner task_sets users weighted acc
    if r.2 then r.1 else fillUsersLoop task_sets users fuel weighted r.1

/-- Translation of `weight_task_set_users` (src/lib.rs): allocate the
weighted task-set list, then cycle over it creating one user per entry
until `configuration.users` users exist. -/
def weight_task_set_users (choose : List (List Nat) → Option Nat)
    (task_sets : List SwanlingTaskSet) (scheduler : SwanlingScheduler)
    (users : Nat) : List SwanlingUser :=
  let weighted_task_sets := allocate_task_sets choose task_sets scheduler
  fillUsersLoop task_sets users (users + 1) weighted_task_sets []

/-- Commands sent from the parent to a user thread. The enum lives in the
`swanling` module (not under src/); `user_main` only distinguishes `Exit`
from everything else, which it ignores. Modelled from the spec: the user
checks its command channel for `Exit`. -/
inductive SwanlingUserCommand
  | Exit
  | Other
  deriving DecidableEq, Repr

/-- Modelled from the spec: `rand::Rng::gen_range(a..b)` (the `rand`
crate, an external collaborator) samples uniformly from the half-open
range `a..b`; `r` is a possible result exactly when `a ≤ r < b`. -/
def gen_range_possible (a b r : Nat) : Prop :=
  a ≤ r ∧ r < b

instance (a b r : Nat) : Decidable (gen_range_possible a b r) := by
  unfold gen_range_possible; infer_instance

/-- Modelled from the spec: `rand::Rng::gen_range(a..b)` panics when the
range `a..b` is empty, i.e. when `b ≤ a`. -/
def gen_range_empty (a b : Nat) : Prop :=
  b ≤ a

instance (a b : Nat) : Decidable (gen_range_empty a b) := by
  unfold gen_range_empty; infer_instance

/-- The wait-time draw in `user_main` (src/user.rs): when `max_wait > 0`
the wait time is `gen_range(min_wait..max_wait)`, otherwise it is 0.
`w` is a possible value of `wait_time` for the given user. -/
def user_wait_time_possible (u : SwanlingUser) (w : Nat) : Prop :=
  if u.max_wait > 0 then gen_range_possible u.min_wait u.max_wait w else w = 0

instance (u : SwanlingUser) (w : Nat) : Decidable (user_wait_time_possible u w) := by
  unfold user_wait_time_possible; split <;> infer_instance

/-- The wait-time draw in `user_main` panics exactly when `max_wait > 0`
and the range `min_wait..max_wait` is empty. -/
def user_wait_time_panics (u : SwanlingUser) : Prop :=
  u.max_wait > 0 ∧ gen_range_empty u.min_wait u.max_wait

instance (u : SwanlingUser) : Decidable (user_wait_time_panics u) := by
  unfold user_wait_time_panics; infer_instance

/-- The inner `while message.is_ok()` drain of `user_main`: read every
queued command; return `true` (break out of the launch_tasks loop) as
soon as `Exit` is seen, ignoring other commands. -/
def drain_messages : List SwanlingUserCommand → Bool
  | [] => false
  | SwanlingUserCommand.Exit :: _ => true
  | _ :: rest => drain_messages rest

/-- The interruptible sleep loop of `user_main` (src/user.rs): each
iteration drains the command channel (`pending` lists the commands queued
at each successive iteration); on `Exit` the user breaks out of the main
loop (result flag `true`). Otherwise, when `max_wait > 0`, it sleeps one
second, increments `slept`, and leaves the loop once `slept > wait_time`;
when `max_wait = 0` it leaves immediately. Returns (exited, seconds
slept). Fuel `wait_time + 1` is enough for every execution. -/
def sleep_loop : Nat → Nat → Nat → Nat → List (List SwanlingUserCommand) → Bool × Nat
  | 0, _, _, slept, _ => (false, slept)
  | fuel + 1, max_wait, wait_time, slept, pending =>
    if drain_messages (pending.headD []) then (true, slept)
    else if max_wait > 0 then
      let slept2 := slept + 1
      if wait_time < slept2 then (false, slept2)
      else sleep_loop fuel max_wait wait_time slept2 pending.tail
    else (false, slept)

/-- Attack lifecycle phases, from `enum AttackPhase` in src/lib.rs. -/
inductive AttackPhase
  | Idle
  | Starting
  | Running
  | Stopping
  | Shutdown
  deriving DecidableEq, Repr

/-- The supervisor state touched by a controller `Stop` request: the
attack phase (`self.attack_phase`), the run state's
`shutdown_after_stop`, and `configuration.no_autostart`. -/
structure SupervisorState where
  attack_phase : AttackPhase
  shutdown_after_stop : Bool
  no_autostart : Bool
  deriving DecidableEq, Repr

/-- Translation of `set_attack_phase` (src/lib.rs): a no-op when already
in the requested phase, otherwise update the phase (the drift timer reset
has no observable effect on the modelled fields). -/
def set_attack_phase (s : SupervisorState) (phase : AttackPhase) : SupervisorState :=
  if s.attack_phase = phase then s else { s with attack_phase := phase }

/-- Translation of the `SwanlingControllerCommand::Stop` arm of
`handle_controller_requests` (src/controller.rs): only a Starting or
Running attack can be stopped, in which case the phase becomes Stopping,
`shutdown_after_stop` is cleared, `no_autostart` is set, and the reply is
`Bool(true)`; otherwise the reply is `Bool(false)` and nothing changes.
Returns (new state, reply). -/
def handle_stop_request (s : SupervisorState) : SupervisorState × Bool :=
  if s.attack_phase = AttackPhase.Starting ∨ s.attack_phase = AttackPhase.Running then
    let s1 := set_attack_phase s AttackPhase.Stopping
    let s2 := { s1 with shutdown_after_stop := false }
    let s3 := { s2 with no_autostart := true }
    (s3, true)
  else (s, false)

/-- A bounded flume channel: capacity plus queued tokens. -/
structure BoundedChannel where
  capacity : Nat
  queue : List Bool
  deriving DecidableEq, Repr

/-- Channel creation `flume::bounded(n)`. -/
def flume_bounded (n : Nat) : BoundedChannel :=
  { capacity := n, queue := [] }

/-- A `send_async` on a bounded channel enqueues when there is room. The
send blocks when the channel is full; the prefill loop in
`setup_throttle` never fills the channel, so the blocking case is never
exercised there (modelled as leaving the channel unchanged). -/
def send_async (c : BoundedChannel) (v : Bool) : BoundedChannel :=
  if c.queue.length < c.capacity then { c with queue := c.queue ++ [v] } else c

/-- The prefill loop `for _ in 1..throttle_requests` of `setup_throttle`:
send `true` a given number of times. -/
def prefill_loop (c : BoundedChannel) : Nat → BoundedChannel
  | 0 => c
  | k + 1 => prefill_loop (send_async c true) k

/-- Translation of `setup_throttle` (src/lib.rs): when
`throttle_requests` is 0 return no channels; otherwise create a bounded
channel of capacity `throttle_requests` and pre-fill all but one slot
(the range `1..throttle_requests` has `throttle_requests - 1`
iterations). Only the user-facing token channel is modelled; the
parent-to-throttle channel carries no claim-relevant state. -/
def setup_throttle (throttle_requests : Nat) : Option BoundedChannel :=
  if throttle_requests = 0 then none
  else
    let c := flume_bounded throttle_requests
    some (prefill_loop c (throttle_requests - 1))

/-- Run modes, from `enum AttackMode` in src/lib.rs. -/
inductive AttackMode
  | Undefined
  | StandAlone
  | Manager
  | Worker
  deriving DecidableEq, Repr

/-- Coordinated-omission mitigation strategies; the enum lives in the
`metrics` module (not under src/). Modelled from the spec: strategies are
disabled, average, minimum and maximum. -/
inductive SwanlingCoordinatedOmissionMitigation
  | Average
  | Minimum
  | Maximum
  | Disabled
  deriving DecidableEq, Repr

/-- The one error variant `set_coordinated_omission` can produce,
`SwanlingError::InvalidOption` (src/lib.rs); the embedded option, value
and detail strings are not modelled. -/
inductive SwanlingErrorKind
  | InvalidOption
  deriving DecidableEq, Repr

/-- Translation of `set_coordinated_omission` (src/lib.rs). Inputs are
`configuration.co_mitigation`, `defaults.co_mitigation`, the attack mode,
`configuration.no_metrics` and the scheduler; the result is the final
`configuration.co_mitigation` or the setup error. Steps, as in the
source: default the option when unset (never on a Worker), fall back to
`Disabled` when still unset (again never on a Worker), then reject a set
option on a Worker, with `no_metrics`, or (unless `Disabled`) with the
Random scheduler. -/
def set_coordinated_omission
    (co_mitigation defaults_co : Option SwanlingCoordinatedOmissionMitigation)
    (attack_mode : AttackMode) (no_metrics : Bool) (scheduler : SwanlingScheduler) :
    Except SwanlingErrorKind (Option SwanlingCoordinatedOmissionMitigation) :=
  let co1 :=
    if co_mitigation.isNone then
      match defaults_co with
      | some d => if attack_mode ≠ AttackMode.Worker then some d else co_mitigation
      | none => co_mitigation
    else co_mitigation
  let co2 :=
    if co1.isNone ∧ attack_mode ≠ AttackMode.Worker then
      some SwanlingCoordinatedOmissionMitigation.Disabled
    else co1
  match co2 with
  | some co =>
    if attack_mode = AttackMode.Worker then Except.error SwanlingErrorKind.InvalidOption
    else if no_metrics then Except.error SwanlingErrorKind.InvalidOption
    else if co ≠ SwanlingCoordinatedOmissionMitigation.Disabled ∧
        scheduler = SwanlingScheduler.Random then
      Except.error SwanlingErrorKind.InvalidOption
    else Except.ok co2
  | none => Except.ok co2

/-- The effective mitigation setting a standalone run ends up with: the
configured value, else the programmatic default, else `Disabled`. -/
def effective_co (co_mitigation defaults_co : Option SwanlingCoordinatedOmissionMitigation) :
    SwanlingCoordinatedOmissionMitigation :=
  match co_mitigation, defaults_co with
  | some c, _ => c
  | none, some d => d
  | none, none => SwanlingCoordinatedOmissionMitigation.Disabled

/-- The slice of `SwanlingAttackRunState` relevant to shutdown
behaviour. -/
structure SwanlingAttackRunState where
  shutdown_after_stop : Bool
  all_users_spawned : Bool
  deriving DecidableEq, Repr

/-- The run-state construction in `initialize_attack` (src/lib.rs):
`shutdown_after_stop: !self.configuration.no_autostart`, users not yet
spawned. -/
def init_attack_run_state (no_autostart : Bool) : SwanlingAttackRunState :=
  { shutdown_after_stop := !no_autostart, all_users_spawned := false }

/-- The run-state reset in `reset_run_state` (src/lib.rs), restricted to
the modelled fields; it restores `shutdown_after_stop` to
`!self.configuration.no_autostart`. -/
def reset_run_state (rs : SwanlingAttackRunState) (no_autostart : Bool) :
    SwanlingAttackRunState :=
  { rs with shutdown_after_stop := !no_autostart, all_users_spawned := false }

/-- The end of the `AttackPhase::Stopping` arm of the supervisor loop in
`execute` (src/lib.rs): shut down when `shutdown_after_stop` is set,
otherwise return to Idle. -/
def stopping_next_phase (shutdown_after_stop : Bool) : AttackPhase :=
  if shutdown_after_stop then AttackPhase.Shutdown else AttackPhase.Idle

/-- The value capture of the `users` command regex
`(?i)^(users?) (\d+)$` in `controller_main` (src/controller.rs): the
captured value is a nonempty digit string. -/
def users_value_matches (s : List Char) : Bool :=
  !s.isEmpty && s.all Char.isDigit

/-- Decimal value of a digit string, as an unbounded natural number. -/
def parse_digits (s : List Char) : Nat :=
  s.foldl (fun acc c => acc * 10 + (c.toNat - 48)) 0

/-- Modelled from the spec: `usize::from_str` (Rust standard library,
outside src/) on a regex-validated nonempty digit string returns the
decimal value when it fits in `usize` and `Err(PosOverflow)` otherwise.
`usize::MAX` is a platform constant (`2 ^ 64 - 1` on 64-bit targets), so
the model takes the bound as the parameter `usize_max`. -/
def usize_from_str (usize_max : Nat) (s : List Char) : Option Nat :=
  if parse_digits s ≤ usize_max then some (parse_digits s) else none

/-- Translation of the `SwanlingControllerCommand::Users` arm of
`handle_controller_requests` (src/controller.rs): in the Idle phase a
provided value is parsed with `usize::from_str(&users).expect(..)`; the
`expect` panics when the digit string overflows `usize` (the panic is
modelled as `none`), otherwise the value is stored in
`configuration.users` and the reply is `Bool(true)`. A missing value
only logs a warning (no reply); outside Idle the reply is `Bool(false)`
and the configuration is unchanged. Returns `none` for the panic,
otherwise (new `configuration.users`, reply if any). -/
def handle_users_request (usize_max : Nat) (phase : AttackPhase) (users0 : Option Nat)
    (value : Option (List Char)) : Option (Option Nat × Option Bool) :=
  if phase = AttackPhase.Idle then
    match value with
    | some users =>
      match usize_from_str usize_max users with
      | some n => some (some n, some true)
      | none => none
    | none => some (users0, none)
  else some (users0, some false)

/-! Concrete inputs used by counterexamples and witnesses. The sequenced
pair mirrors the shape used in the repository's tests/sequence.rs: two
tasks sharing sequence 1, with weights 2 and 1. -/

/-- A main task with weight 2 and sequence 1. -/
def example_task_one : SwanlingTask :=
  { tasks_index := 0, name := "one", weight := 2, sequence := 1,
    on_start := false, on_stop := false }

/-- A main task with weight 1 and sequence 1. -/
def example_task_two : SwanlingTask :=
  { tasks_index := 1, name := "two", weight := 1, sequence := 1,
    on_start := false, on_stop := false }

/-- A task set holding the two sequenced tasks above. -/
def example_sequenced_set : SwanlingTaskSet :=
  { name := "LoadTest", task_sets_index := 0, weight := 1, min_wait := 0, max_wait := 0,
    tasks := [example_task_one, example_task_two] }

/-- An on_start task with weight 1, unsequenced. -/
def example_start_task : SwanlingTask :=
  { tasks_index := 0, name := "setup", weight := 1, sequence := 0,
    on_start := true, on_stop := false }

/-- An unflagged main task with weight 1, unsequenced. -/
def example_main_task : SwanlingTask :=
  { tasks_index := 1, name := "main", weight := 1, sequence := 0,
    on_start := false, on_stop := false }

/-- A task set mixing one on_start task and one main task. -/
def example_flagged_set : SwanlingTaskSet :=
  { name := "Flagged", task_sets_index := 0, weight := 1, min_wait := 0, max_wait := 0,
    tasks := [example_start_task, example_main_task] }

/-- An on_start task with weight 2 and sequence 1. -/
def example_seq_start_one : SwanlingTask :=
  { tasks_index := 0, name := "s1", weight := 2, sequence := 1,
    on_start := true, on_stop := false }

/-- An on_start task with weight 1 and sequence 1. -/
def example_seq_start_two : SwanlingTask :=
  { tasks_index := 1, name := "s2", weight := 1, sequence := 1,
    on_start := true, on_stop := false }

/-- A task set holding the two sequenced on_start tasks above. -/
def example_seq_start_set : SwanlingTaskSet :=
  { name := "SeqStart", task_sets_index := 0, weight := 1, min_wait := 0, max_wait := 0,
    tasks := [example_seq_start_one, example_seq_start_two] }

/-- Task set A of the round-robin allocation scenario, weight 5. -/
def example_set_a : SwanlingTaskSet :=
  { name := "A", task_sets_index := 0, weight := 5, min_wait := 0, max_wait := 0,
    tasks := [] }

/-- Task set B of the round-robin allocation scenario, weight 3. -/
def example_set_b : SwanlingTaskSet :=
  { name := "B", task_sets_index := 1, weight := 3, min_wait := 0, max_wait := 0,
    tasks := [] }

/-- Per-task sum of a numeric weight function over a task list. -/
def listSum (f : SwanlingTask → Nat) (l : List SwanlingTask) : Nat :=
  (l.map f).sum

/-- Per-task sum of a numeric weight function over all buckets of a
sequenced association list. -/
def seqSum (f : SwanlingTask → Nat) (m : List (Nat × List SwanlingTask)) : Nat :=
  (m.map (fun p => listSum f p.2)).sum

/-- Number of occurrences of an index across a list of buckets. -/
def bucketsCount (x : Nat) (buckets : List (List Nat)) : Nat :=
  (buckets.map (List.count x)).sum

/-! Helper lemmas about the scheduler model. -/

theorem rrPass_count (x : Nat) :
    ∀ buckets : List (List Nat),
      List.count x (rrPass buckets).1 + bucketsCount x (rrPass buckets).2 =
        bucketsCount x buckets
  | [] => rfl
  | b :: rest => by
    have ih := rrPass_count x rest
    unfold rrPass
    cases hb : b.getLast? with
    | none =>
      have hbnil : b = [] := List.getLast?_eq_none_iff.mp hb
      subst hbnil
      simpa [bucketsCount] using ih
    | some y =>
      have hbne : b ≠ [] := by
        intro hnil; subst hnil; simp at hb
      have hy : y = b.getLast hbne := by
        have := List.getLast?_eq_getLast b hbne
        rw [hb] at this
        exact (Option.some_inj.mp this)
      have hsplit : b.dropLast ++ [b.getLast hbne] = b :=
        List.dropLast_append_getLast hbne
      have hcount : List.count x b.dropLast + List.count x [y] = List.count x b := by
        rw [hy, ← List.count_append, hsplit]
      have hc1 : List.count x (y :: (rrPass rest).1) =
          List.count x [y] + List.count x (rrPass rest).1 := by
        have hsing : y :: (rrPass rest).1 = [y] ++ (rrPass rest).1 := rfl
        rw [hsing, List.count_append]
      have hb1 : bucketsCount x (b.dropLast :: (rrPass rest).2) =
          List.count x b.dropLast + bucketsCount x (rrPass rest).2 := by
        simp [bucketsCount]
      have hb2 : bucketsCount x (b :: rest) = List.count x b + bucketsCount x rest := by
        simp [bucketsCount]
      simp only [hc1, hb1, hb2]
      omega

theorem rrPass_len :
    ∀ buckets : List (List Nat),
      (rrPass buckets).1.length + bucketsLen (rrPass buckets).2 = bucketsLen buckets
  | [] => rfl
  | b :: rest => by
    have ih := rrPass_len rest
    unfold rrPass
    cases hb : b.getLast? with
    | none =>
      have hbnil : b = [] := List.getLast?_eq_none_iff.mp hb
      subst hbnil
      simpa [bucketsLen] using ih
    | some y =>
      have hbne : b ≠ [] := by
        intro hnil; subst hnil; simp at hb
      have hlen : 0 < b.length := List.length_pos.mpr hbne
      simp only [bucketsLen, List.map_cons, List.sum_cons, List.length_cons] at *
      simp [List.length_dropLast]
      omega

theorem rrPass_pos :
    ∀ buckets : List (List Nat), bucketsLen buckets ≠ 0 → 0 < (rrPass buckets).1.length
  | [], h => by simp [bucketsLen] at h
  | b :: rest, h => by
    unfold rrPass
    cases hb : b.getLast? with
    | none =>
      have hbnil : b = [] := List.getLast?_eq_none_iff.mp hb
      subst hbnil
      have : bucketsLen rest ≠ 0 := by
        simpa [bucketsLen] using h
      simpa using rrPass_pos rest this
    | some y => simp

theorem bucketsCount_eq_zero (x : Nat) :
    ∀ buckets : List (List Nat), bucketsLen buckets = 0 → bucketsCount x buckets = 0
  | [], _ => rfl
  | b :: rest, h => by
    simp only [bucketsLen, List.map_cons, List.sum_cons] at h
    have hb : b = [] := List.length_eq_zero.mp (by omega)
    have hrest : bucketsLen rest = 0 := by simp [bucketsLen]; omega
    subst hb
    simpa [bucketsCount] using bucketsCount_eq_zero x rest hrest

theorem rrLoop_count_exact (x : Nat) :
    ∀ (fuel : Nat) (buckets : List (List Nat)) (total : Nat) (acc : List Nat),
      acc.length + bucketsLen buckets = total →
      bucketsLen buckets < fuel →
      List.count x (rrLoop fuel buckets total acc) =
        List.count x acc + bucketsCount x buckets
  | 0, buckets, total, acc, hlen, hfuel => by omega
  | fuel + 1, buckets, total, acc, hlen, hfuel => by
    unfold rrLoop
    have hcnt := rrPass_count x buckets
    have hplen := rrPass_len buckets
    by_cases hbr : total ≤ (acc ++ (rrPass buckets).1).length
    · rw [if_pos hbr]
      simp only [List.length_append] at hbr
      have hz : bucketsLen (rrPass buckets).2 = 0 := by omega
      have := bucketsCount_eq_zero x _ hz
      rw [List.count_append]
      omega
    · rw [if_neg hbr]
      simp only [List.length_append] at hbr
      have hpos : 0 < (rrPass buckets).1.length := by
        by_contra hnp
        have h0 : (rrPass buckets).1.length = 0 := by omega
        have : bucketsLen buckets ≠ 0 → 0 < (rrPass buckets).1.length :=
          rrPass_pos buckets
        by_cases hbl : bucketsLen buckets = 0
        · omega
        · have := this hbl; omega
      have ih := rrLoop_count_exact x fuel (rrPass buckets).2 total
        (acc ++ (rrPass buckets).1)
        (by simp only [List.length_append]; omega) (by omega)
      rw [ih, List.count_append]
      omega

theorem rrLoop_count_le (x : Nat) :
    ∀ (fuel : Nat) (buckets : List (List Nat)) (total : Nat) (acc : List Nat),
      List.count x (rrLoop fuel buckets total acc) ≤
        List.count x acc + bucketsCount x buckets
  | 0, buckets, total, acc => by simp [rrLoop]
  | fuel + 1, buckets, total, acc => by
    unfold rrLoop
    have hcnt := rrPass_count x buckets
    by_cases hbr : total ≤ (acc ++ (rrPass buckets).1).length
    · rw [if_pos hbr]
      rw [List.count_append]
      omega
    · rw [if_neg hbr]
      have ih := rrLoop_count_le x fuel (rrPass buckets).2 total (acc ++ (rrPass buckets).1)
      rw [List.count_append] at ih
      omega

theorem foldl_append_count (tr : List Nat → List Nat)
    (htr : ∀ (b : List Nat) (x : Nat), List.count x (tr b) = List.count x b) :
    ∀ (l : List (List Nat)) (init : List Nat) (x : Nat),
      List.count x (l.foldl (fun acc b => acc ++ tr b) init) =
        List.count x init + bucketsCount x l
  | [], init, x => by simp [bucketsCount]
  | b :: rest, init, x => by
    simp only [List.foldl_cons]
    rw [foldl_append_count tr htr rest (init ++ tr b) x]
    rw [List.count_append, htr]
    simp [bucketsCount]
    omega

theorem schedule_unsequenced_count_serial (sh : List Nat → List Nat)
    (hsh : ∀ (l : List Nat) (x : Nat), List.count x (sh l) = List.count x l)
    (buckets : List (List Nat)) (total : Nat) (scheduler : SwanlingScheduler)
    (hs : scheduler = SwanlingScheduler.Serial ∨ scheduler = SwanlingScheduler.Random)
    (x : Nat) :
    List.count x (schedule_unsequenced_tasks sh buckets total scheduler) =
      bucketsCount x buckets := by
  rcases hs with hs | hs <;> subst hs
  · have := foldl_append_count (fun b => b) (fun b x => rfl) buckets [] x
    simpa [schedule_unsequenced_tasks] using this
  · have := foldl_append_count sh hsh buckets [] x
    simpa [schedule_unsequenced_tasks] using this

theorem schedule_unsequenced_count_le (sh : List Nat → List Nat)
    (hsh : ∀ (l : List Nat) (x : Nat), List.count x (sh l) = List.count x l)
    (buckets : List (List Nat)) (total : Nat) (scheduler : SwanlingScheduler) (x : Nat) :
    List.count x (schedule_unsequenced_tasks sh buckets total scheduler) ≤
      bucketsCount x buckets := by
  cases scheduler with
  | RoundRobin =>
    have := rrLoop_count_le x (total + bucketsLen buckets + 1) buckets total []
    simpa [schedule_unsequenced_tasks] using this
  | Serial =>
    exact le_of_eq (schedule_unsequenced_count_serial sh hsh buckets total _ (Or.inl rfl) x)
  | Random =>
    exact le_of_eq (schedule_unsequenced_count_serial sh hsh buckets total _ (Or.inr rfl) x)

theorem schedule_unsequenced_count_rr (sh : List Nat → List Nat)
    (buckets : List (List Nat)) (x : Nat) :
    List.count x
        (schedule_unsequenced_tasks sh buckets (bucketsLen buckets)
          SwanlingScheduler.RoundRobin) =
      bucketsCount x buckets := by
  have := rrLoop_count_exact x (bucketsLen buckets + bucketsLen buckets + 1) buckets
    (bucketsLen buckets) [] (by simp) (by omega)
  simpa [schedule_unsequenced_tasks] using this

theorem schedule_sequenced_count_serial (sh : List Nat → List Nat)
    (hsh : ∀ (l : List Nat) (x : Nat), List.count x (sh l) = List.count x l)
    (scheduler : SwanlingScheduler)
    (hs : scheduler = SwanlingScheduler.Serial ∨ scheduler = SwanlingScheduler.Random)
    (x : Nat) :
    ∀ (m : List (Nat × List (List Nat))) (init : List Nat),
      List.count x (m.foldl
          (fun acc p =>
            acc ++ schedule_unsequenced_tasks sh p.2 (p.2.headD []).length scheduler)
          init) =
        List.count x init + (m.map (fun p => bucketsCount x p.2)).sum
  | [], init => by simp
  | p :: rest, init => by
    simp only [List.foldl_cons]
    rw [schedule_sequenced_count_serial sh hsh scheduler hs x rest _]
    rw [List.count_append]
    rw [schedule_unsequenced_count_serial sh hsh p.2 _ scheduler hs x]
    simp
    omega

theorem schedule_sequenced_count_le (sh : List Nat → List Nat)
    (hsh : ∀ (l : List Nat) (x : Nat), List.count x (sh l) = List.count x l)
    (scheduler : SwanlingScheduler) (x : Nat) :
    ∀ (m : List (Nat × List (List Nat))) (init : List Nat),
      List.count x (m.foldl
          (fun acc p =>
            acc ++ schedule_unsequenced_tasks sh p.2 (p.2.headD []).length scheduler)
          init) ≤
        List.count x init + (m.map (fun p => bucketsCount x p.2)).sum
  | [], init => by simp
  | p :: rest, init => by
    simp only [List.foldl_cons]
    have hrec := schedule_sequenced_count_le sh hsh scheduler x rest
      (init ++ schedule_unsequenced_tasks sh p.2 (p.2.headD []).length scheduler)
    have hone := schedule_unsequenced_count_le sh hsh p.2 (p.2.headD []).length scheduler x
    rw [List.count_append] at hrec
    simp only [List.map_cons, List.sum_cons]
    omega

theorem weight_unsequenced_tasks_aux (u : Nat) :
    ∀ (ts : List SwanlingTask) (acc : List (List Nat) × Nat),
      ts.foldl
          (fun acc task =>
            let weight := task.weight / u
            (acc.1 ++ [List.replicate weight task.tasks_index], acc.2 + weight))
          acc =
        (acc.1 ++ ts.map (fun t => List.replicate (t.weight / u) t.tasks_index),
          acc.2 + listSum (fun t => t.weight / u) ts)
  | [], acc => by simp [listSum]
  | t :: rest, acc => by
    simp only [List.foldl_cons]
    rw [weight_unsequenced_tasks_aux u rest _]
    simp [listSum]
    omega

theorem weight_unsequenced_tasks_spec (ts : List SwanlingTask) (u : Nat) :
    weight_unsequenced_tasks ts u =
      (ts.map (fun t => List.replicate (t.weight / u) t.tasks_index),
        listSum (fun t => t.weight / u) ts) := by
  unfold weight_unsequenced_tasks
  have := weight_unsequenced_tasks_aux u ts ([], 0)
  simpa using this

theorem bucketsCount_weight (x u : Nat) :
    ∀ ts : List SwanlingTask,
      bucketsCount x (ts.map (fun t => List.replicate (t.weight / u) t.tasks_index)) =
        listSum (fun t => if t.tasks_index = x then t.weight / u else 0) ts
  | [] => rfl
  | t :: rest => by
    simp only [List.map_cons]
    have ih := bucketsCount_weight x u rest
    simp only [bucketsCount, List.map_cons, List.sum_cons] at ih ⊢
    rw [ih]
    simp only [listSum, List.map_cons, List.sum_cons, List.count_replicate]
    by_cases h : t.tasks_index = x
    · simp [h]
    · have hbeq : (t.tasks_index == x) = false := by
        simp [h]
      simp [hbeq, h]

theorem bucketsLen_weight (u : Nat) :
    ∀ ts : List SwanlingTask,
      bucketsLen (ts.map (fun t => List.replicate (t.weight / u) t.tasks_index)) =
        listSum (fun t => t.weight / u) ts
  | [] => rfl
  | t :: rest => by
    have ih := bucketsLen_weight u rest
    simp only [bucketsLen, listSum, List.map_cons, List.sum_cons, List.map_map] at ih ⊢
    simp [ih]

theorem btree_insert_sum (f : SwanlingTask → Nat) :
    ∀ (m : List (Nat × List SwanlingTask)) (k : Nat) (t : SwanlingTask),
      seqSum f (btree_insert m k t) = seqSum f m + f t
  | [], k, t => by simp [btree_insert, seqSum, listSum]
  | (kx, ts) :: rest, k, t => by
    unfold btree_insert
    by_cases h1 : k = kx
    · rw [if_pos h1]
      simp [seqSum, listSum]
      omega
    · rw [if_neg h1]
      by_cases h2 : k < kx
      · rw [if_pos h2]
        simp [seqSum, listSum]
        omega
      · rw [if_neg h2]
        have ih := btree_insert_sum f rest k t
        simp only [seqSum, List.map_cons, List.sum_cons] at ih ⊢
        omega

theorem group_task_sums (f : SwanlingTask → Nat) (g : GroupedTasks) (t : SwanlingTask) :
    seqSum f (group_task g t).sequenced_on_start_tasks =
      seqSum f g.sequenced_on_start_tasks +
        (if 0 < t.sequence ∧ t.on_start = true then f t else 0) ∧
    seqSum f (group_task g t).sequenced_on_stop_tasks =
      seqSum f g.sequenced_on_stop_tasks +
        (if 0 < t.sequence ∧ t.on_stop = true then f t else 0) ∧
    seqSum f (group_task g t).sequenced_tasks =
      seqSum f g.sequenced_tasks +
        (if 0 < t.sequence ∧ t.on_start = false ∧ t.on_stop = false then f t else 0) ∧
    listSum f (group_task g t).unsequenced_on_start_tasks =
      listSum f g.unsequenced_on_start_tasks +
        (if t.sequence = 0 ∧ t.on_start = true then f t else 0) ∧
    listSum f (group_task g t).unsequenced_on_stop_tasks =
      listSum f g.unsequenced_on_stop_tasks +
        (if t.sequence = 0 ∧ t.on_stop = true then f t else 0) ∧
    listSum f (group_task g t).unsequenced_tasks =
      listSum f g.unsequenced_tasks +
        (if t.sequence = 0 ∧ t.on_start = false ∧ t.on_stop = false then f t else 0) := by
  by_cases hseq : 0 < t.sequence
  · have hne : t.sequence ≠ 0 := by omega
    cases hst : t.on_start <;> cases hsp : t.on_stop <;>
      refine ⟨?_, ?_, ?_, ?_, ?_, ?_⟩ <;>
        simp [group_task, hseq, hne, hst, hsp, btree_insert_sum, listSum]
  · have h0 : t.sequence = 0 := by omega
    cases hst : t.on_start <;> cases hsp : t.on_stop <;>
      refine ⟨?_, ?_, ?_, ?_, ?_, ?_⟩ <;>
        simp [group_task, hseq, h0, hst, hsp, btree_insert_sum, listSum]

theorem group_foldl_sums (f : SwanlingTask → Nat) :
    ∀ (tasks : List SwanlingTask) (g0 : GroupedTasks),
      seqSum f (tasks.foldl group_task g0).sequenced_on_start_tasks =
        seqSum f g0.sequenced_on_start_tasks +
          listSum (fun t => if 0 < t.sequence ∧ t.on_start = true then f t else 0) tasks ∧
      seqSum f (tasks.foldl group_task g0).sequenced_on_stop_tasks =
        seqSum f g0.sequenced_on_stop_tasks +
          listSum (fun t => if 0 < t.sequence ∧ t.on_stop = true then f t else 0) tasks ∧
      seqSum f (tasks.foldl group_task g0).sequenced_tasks =
        seqSum f g0.sequenced_tasks +
          listSum (fun t => if 0 < t.sequence ∧ t.on_start = false ∧ t.on_stop = false
            then f t else 0) tasks ∧
      listSum f (tasks.foldl group_task g0).unsequenced_on_start_tasks =
        listSum f g0.unsequenced_on_start_tasks +
          listSum (fun t => if t.sequence = 0 ∧ t.on_start = true then f t else 0) tasks ∧
      listSum f (tasks.foldl group_task g0).unsequenced_on_stop_tasks =
        listSum f g0.unsequenced_on_stop_tasks +
          listSum (fun t => if t.sequence = 0 ∧ t.on_stop = true then f t else 0) tasks ∧
      listSum f (tasks.foldl group_task g0).unsequenced_tasks =
        listSum f g0.unsequenced_tasks +
          listSum (fun t => if t.sequence = 0 ∧ t.on_start = false ∧ t.on_stop = false
            then f t else 0) tasks
  | [], g0 => by simp [listSum]
  | t :: rest, g0 => by
    have hstep := group_task_sums f g0 t
    have ih := group_foldl_sums f rest (group_task g0 t)
    simp only [List.foldl_cons]
    simp only [listSum, List.map_cons, List.sum_cons] at ih hstep ⊢
    refine ⟨?_, ?_, ?_, ?_, ?_, ?_⟩
    · rw [ih.1, hstep.1]; omega
    · rw [ih.2.1, hstep.2.1]; omega
    · rw [ih.2.2.1, hstep.2.2.1]; omega
    · rw [ih.2.2.2.1, hstep.2.2.2.1]; omega
    · rw [ih.2.2.2.2.1, hstep.2.2.2.2.1]; omega
    · rw [ih.2.2.2.2.2, hstep.2.2.2.2.2]; omega

theorem group_task_seq_unchanged (g : GroupedTasks) (t : SwanlingTask)
    (h : t.sequence = 0) :
    (group_task g t).sequenced_tasks = g.sequenced_tasks ∧
    (group_task g t).sequenced_on_start_tasks = g.sequenced_on_start_tasks ∧
    (group_task g t).sequenced_on_stop_tasks = g.sequenced_on_stop_tasks := by
  cases hst : t.on_start <;> cases hsp : t.on_stop <;>
    refine ⟨?_, ?_, ?_⟩ <;> simp [group_task, h, hst, hsp]

theorem group_foldl_seq_nil :
    ∀ (tasks : List SwanlingTask) (g0 : GroupedTasks),
      (∀ t ∈ tasks, t.sequence = 0) →
      (tasks.foldl group_task g0).sequenced_tasks = g0.sequenced_tasks ∧
      (tasks.foldl group_task g0).sequenced_on_start_tasks = g0.sequenced_on_start_tasks ∧
      (tasks.foldl group_task g0).sequenced_on_stop_tasks = g0.sequenced_on_stop_tasks
  | [], g0, _ => ⟨rfl, rfl, rfl⟩
  | t :: rest, g0, h => by
    have hstep := group_task_seq_unchanged g0 t (h t (List.mem_cons_self t rest))
    have ih := group_foldl_seq_nil rest (group_task g0 t)
      (fun s hs => h s (List.mem_cons_of_mem t hs))
    simp only [List.foldl_cons]
    exact ⟨ih.1.trans hstep.1, ih.2.1.trans hstep.2.1, ih.2.2.trans hstep.2.2⟩

theorem listSum_congr {f g : SwanlingTask → Nat} :
    ∀ {l : List SwanlingTask}, (∀ t ∈ l, f t = g t) → listSum f l = listSum g l
  | [], _ => rfl
  | t :: rest, h => by
    simp only [listSum, List.map_cons, List.sum_cons]
    rw [h t (List.mem_cons_self t rest)]
    have ih := listSum_congr (f := f) (g := g) (l := rest)
      (fun s hs => h s (List.mem_cons_of_mem t hs))
    simp only [listSum] at ih
    rw [ih]

theorem listSum_add (f g : SwanlingTask → Nat) :
    ∀ l : List SwanlingTask, listSum (fun t => f t + g t) l = listSum f l + listSum g l
  | [] => rfl
  | t :: rest => by
    have ih := listSum_add f g rest
    simp only [listSum, List.map_cons, List.sum_cons] at ih ⊢
    omega

theorem listSum_zero_of_ne_index (P : SwanlingTask → Prop) [DecidablePred P]
    (g : SwanlingTask → Nat) (x : Nat) :
    ∀ l : List SwanlingTask, (∀ s ∈ l, s.tasks_index ≠ x) →
      listSum (fun s => if P s ∧ s.tasks_index = x then g s else 0) l = 0
  | [], _ => rfl
  | s :: rest, h => by
    have ih := listSum_zero_of_ne_index P g x rest
      (fun r hr => h r (List.mem_cons_of_mem s hr))
    simp only [listSum, List.map_cons, List.sum_cons] at ih ⊢
    rw [if_neg (by
      intro hc
      exact h s (List.mem_cons_self s rest) hc.2)]
    omega

theorem listSum_single (P : SwanlingTask → Prop) [DecidablePred P]
    (g : SwanlingTask → Nat) (t : SwanlingTask) :
    ∀ l : List SwanlingTask,
      l.Pairwise (fun a b => a.tasks_index ≠ b.tasks_index) →
      t ∈ l →
      listSum (fun s => if P s ∧ s.tasks_index = t.tasks_index then g s else 0) l =
        if P t then g t else 0
  | [], _, ht => absurd ht (List.not_mem_nil t)
  | s :: rest, hp, ht => by
    have hp2 := List.pairwise_cons.mp hp
    rcases List.mem_cons.mp ht with he | hm
    · subst he
      have hz := listSum_zero_of_ne_index P g t.tasks_index rest
        (fun r hr => (hp2.1 r hr).symm)
      simp only [listSum, List.map_cons, List.sum_cons] at hz ⊢
      rw [hz]
      by_cases hP : P t <;> simp [hP]
    · have ih := listSum_single P g t rest hp2.2 hm
      simp only [listSum, List.map_cons, List.sum_cons] at ih ⊢
      rw [ih]
      rw [if_neg (by
        intro hc
        exact hp2.1 t hm hc.2)]
      omega

theorem weight_sequenced_count (u x : Nat) :
    ∀ m : List (Nat × List SwanlingTask),
      ((weight_sequenced_tasks m u).map (fun p => bucketsCount x p.2)).sum =
        seqSum (fun t => if t.tasks_index = x then t.weight / u else 0) m
  | [] => rfl
  | p :: rest => by
    have ih := weight_sequenced_count u x rest
    simp only [weight_sequenced_tasks, seqSum, List.map_cons, List.sum_cons] at ih ⊢
    rw [weight_unsequenced_tasks_spec]
    rw [bucketsCount_weight]
    omega

theorem allocate_tasks_map_fst (sh : List Nat → List Nat) (ts : SwanlingTaskSet)
    (sched : SwanlingScheduler) :
    (allocate_tasks sh ts sched).1.map Prod.fst =
      schedule_sequenced_tasks sh
          (weight_sequenced_tasks (group_tasks ts.tasks).sequenced_on_start_tasks
            (tasks_gcd ts.tasks)) sched ++
        schedule_unsequenced_tasks sh
          (weight_unsequenced_tasks (group_tasks ts.tasks).unsequenced_on_start_tasks
            (tasks_gcd ts.tasks)).1
          (weight_unsequenced_tasks (group_tasks ts.tasks).unsequenced_on_start_tasks
            (tasks_gcd ts.tasks)).2 sched ∧
    (allocate_tasks sh ts sched).2.1.map Prod.fst =
      schedule_sequenced_tasks sh
          (weight_sequenced_tasks (group_tasks ts.tasks).sequenced_tasks
            (tasks_gcd ts.tasks)) sched ++
        schedule_unsequenced_tasks sh
          (weight_unsequenced_tasks (group_tasks ts.tasks).unsequenced_tasks
            (tasks_gcd ts.tasks)).1
          (weight_unsequenced_tasks (group_tasks ts.tasks).unsequenced_tasks
            (tasks_gcd ts.tasks)).2 sched ∧
    (allocate_tasks sh ts sched).2.2.map Prod.fst =
      schedule_sequenced_tasks sh
          (weight_sequenced_tasks (group_tasks ts.tasks).sequenced_on_stop_tasks
            (tasks_gcd ts.tasks)) sched ++
        schedule_unsequenced_tasks sh
          (weight_unsequenced_tasks (group_tasks ts.tasks).unsequenced_on_stop_tasks
            (tasks_gcd ts.tasks)).1
          (weight_unsequenced_tasks (group_tasks ts.tasks).unsequenced_on_stop_tasks
            (tasks_gcd ts.tasks)).2 sched := by
  refine ⟨?_, ?_, ?_⟩ <;>
    simp [allocate_tasks, List.map_map, Function.comp_def]

theorem category_count_exact (sh : List Nat → List Nat)
    (hsh : ∀ (l : List Nat) (x : Nat), List.count x (sh l) = List.count x l)
    (sched : SwanlingScheduler)
    (hsched : sched = SwanlingScheduler.Serial ∨ sched = SwanlingScheduler.Random)
    (u x : Nat) (seqGroups : List (Nat × List SwanlingTask))
    (unseqTasks : List SwanlingTask) :
    List.count x
        (schedule_sequenced_tasks sh (weight_sequenced_tasks seqGroups u) sched ++
          schedule_unsequenced_tasks sh (weight_unsequenced_tasks unseqTasks u).1
            (weight_unsequenced_tasks unseqTasks u).2 sched) =
      seqSum (fun t => if t.tasks_index = x then t.weight / u else 0) seqGroups +
        listSum (fun t => if t.tasks_index = x then t.weight / u else 0) unseqTasks := by
  rw [List.count_append]
  have hseq : List.count x
      (schedule_sequenced_tasks sh (weight_sequenced_tasks seqGroups u) sched) =
      seqSum (fun t => if t.tasks_index = x then t.weight / u else 0) seqGroups := by
    unfold schedule_sequenced_tasks
    rw [schedule_sequenced_count_serial sh hsh sched hsched x (weight_sequenced_tasks seqGroups u) []]
    rw [weight_sequenced_count]
    simp
  have huns : List.count x
      (schedule_unsequenced_tasks sh (weight_unsequenced_tasks unseqTasks u).1
        (weight_unsequenced_tasks unseqTasks u).2 sched) =
      listSum (fun t => if t.tasks_index = x then t.weight / u else 0) unseqTasks := by
    rw [schedule_unsequenced_count_serial sh hsh _ _ sched hsched x]
    rw [weight_unsequenced_tasks_spec]
    exact bucketsCount_weight x u unseqTasks
  rw [hseq, huns]

theorem category_count_rr (sh : List Nat → List Nat) (u x : Nat)
    (unseqTasks : List SwanlingTask) :
    List.count x
        (schedule_sequenced_tasks sh (weight_sequenced_tasks [] u)
            SwanlingScheduler.RoundRobin ++
          schedule_unsequenced_tasks sh (weight_unsequenced_tasks unseqTasks u).1
            (weight_unsequenced_tasks unseqTasks u).2 SwanlingScheduler.RoundRobin) =
      listSum (fun t => if t.tasks_index = x then t.weight / u else 0) unseqTasks := by
  rw [List.count_append]
  have hseq : schedule_sequenced_tasks sh (weight_sequenced_tasks [] u)
      SwanlingScheduler.RoundRobin = [] := rfl
  rw [hseq]
  rw [weight_unsequenced_tasks_spec]
  have htot : listSum (fun t => t.weight / u) unseqTasks =
      bucketsLen (unseqTasks.map (fun t => List.replicate (t.weight / u) t.tasks_index)) :=
    (bucketsLen_weight u unseqTasks).symm
  rw [htot]
  rw [schedule_unsequenced_count_rr]
  rw [bucketsCount_weight]
  simp

theorem indicator_combine (P : SwanlingTask → Prop) [DecidablePred P] (x u : Nat)
    (t : SwanlingTask) :
    (if 0 < t.sequence ∧ P t then (if t.tasks_index = x then t.weight / u else 0) else 0) +
      (if t.sequence = 0 ∧ P t then (if t.tasks_index = x then t.weight / u else 0) else 0) =
      (if P t ∧ t.tasks_index = x then t.weight / u else 0) := by
  rcases Nat.eq_zero_or_pos t.sequence with h0 | hpos
  · by_cases hP : P t <;> by_cases hx : t.tasks_index = x <;> simp [h0, hP, hx]
  · have hne : t.sequence ≠ 0 := by omega
    by_cases hP : P t <;> by_cases hx : t.tasks_index = x <;> simp [hpos, hne, hP, hx]

theorem indicator_unseq_only (P : SwanlingTask → Prop) [DecidablePred P] (x u : Nat)
    (t : SwanlingTask) (h0 : t.sequence = 0) :
    (if t.sequence = 0 ∧ P t then (if t.tasks_index = x then t.weight / u else 0) else 0) =
      (if P t ∧ t.tasks_index = x then t.weight / u else 0) := by
  by_cases hP : P t <;> by_cases hx : t.tasks_index = x <;> simp [h0, hP, hx]

theorem allocate_tasks_count_start (sh : List Nat → List Nat)
    (hsh : ∀ (l : List Nat) (x : Nat), List.count x (sh l) = List.count x l)
    (ts : SwanlingTaskSet) (sched : SwanlingScheduler) (x : Nat)
    (hsched : sched = SwanlingScheduler.Serial ∨ sched = SwanlingScheduler.Random ∨
      ∀ s ∈ ts.tasks, s.sequence = 0) :
    ((allocate_tasks sh ts sched).1.map Prod.fst).count x =
      listSum (fun t => if t.on_start = true ∧ t.tasks_index = x
        then t.weight / tasks_gcd ts.tasks else 0) ts.tasks := by
  have hshape := (allocate_tasks_map_fst sh ts sched).1
  rw [hshape]
  have hg := group_foldl_sums
    (fun t => if t.tasks_index = x then t.weight / tasks_gcd ts.tasks else 0)
    ts.tasks ⟨[], [], [], [], [], []⟩
  have hgseq : seqSum
      (fun t => if t.tasks_index = x then t.weight / tasks_gcd ts.tasks else 0)
      (group_tasks ts.tasks).sequenced_on_start_tasks =
      listSum (fun t => if 0 < t.sequence ∧ t.on_start = true
        then (if t.tasks_index = x then t.weight / tasks_gcd ts.tasks else 0) else 0)
        ts.tasks := by
    have := hg.1
    simpa [group_tasks, seqSum, listSum] using this
  have hguns : listSum
      (fun t => if t.tasks_index = x then t.weight / tasks_gcd ts.tasks else 0)
      (group_tasks ts.tasks).unsequenced_on_start_tasks =
      listSum (fun t => if t.sequence = 0 ∧ t.on_start = true
        then (if t.tasks_index = x then t.weight / tasks_gcd ts.tasks else 0) else 0)
        ts.tasks := by
    have := hg.2.2.2.1
    simpa [group_tasks, seqSum, listSum] using this
  have hexact : sched = SwanlingScheduler.Serial ∨ sched = SwanlingScheduler.Random →
      ((schedule_sequenced_tasks sh
          (weight_sequenced_tasks (group_tasks ts.tasks).sequenced_on_start_tasks
            (tasks_gcd ts.tasks)) sched ++
        schedule_unsequenced_tasks sh
          (weight_unsequenced_tasks (group_tasks ts.tasks).unsequenced_on_start_tasks
            (tasks_gcd ts.tasks)).1
          (weight_unsequenced_tasks (group_tasks ts.tasks).unsequenced_on_start_tasks
            (tasks_gcd ts.tasks)).2 sched).count x) =
      listSum (fun t => if t.on_start = true ∧ t.tasks_index = x
        then t.weight / tasks_gcd ts.tasks else 0) ts.tasks := by
    intro hs
    rw [category_count_exact sh hsh sched hs (tasks_gcd ts.tasks) x _ _]
    rw [hgseq, hguns, ← listSum_add]
    exact listSum_congr (fun t _ =>
      indicator_combine (fun t => t.on_start = true) x (tasks_gcd ts.tasks) t)
  rcases hsched with hs | hs | hall
  · exact hexact (Or.inl hs)
  · exact hexact (Or.inr hs)
  · cases sched with
    | Serial => exact hexact (Or.inl rfl)
    | Random => exact hexact (Or.inr rfl)
    | RoundRobin =>
      have hnil := group_foldl_seq_nil ts.tasks ⟨[], [], [], [], [], []⟩ hall
      have hnil1 : (group_tasks ts.tasks).sequenced_on_start_tasks = [] := by
        simpa [group_tasks] using hnil.2.1
      rw [hnil1]
      rw [category_count_rr sh (tasks_gcd ts.tasks) x _]
      rw [hguns]
      exact listSum_congr (fun t ht =>
        indicator_unseq_only (fun t => t.on_start = true) x (tasks_gcd ts.tasks) t (hall t ht))

theorem allocate_tasks_count_main (sh : List Nat → List Nat)
    (hsh : ∀ (l : List Nat) (x : Nat), List.count x (sh l) = List.count x l)
    (ts : SwanlingTaskSet) (sched : SwanlingScheduler) (x : Nat)
    (hsched : sched = SwanlingScheduler.Serial ∨ sched = SwanlingScheduler.Random ∨
      ∀ s ∈ ts.tasks, s.sequence = 0) :
    ((allocate_tasks sh ts sched).2.1.map Prod.fst).count x =
      listSum (fun t => if (t.on_start = false ∧ t.on_stop = false) ∧ t.tasks_index = x
        then t.weight / tasks_gcd ts.tasks else 0) ts.tasks := by
  have hshape := (allocate_tasks_map_fst sh ts sched).2.1
  rw [hshape]
  have hg := group_foldl_sums
    (fun t => if t.tasks_index = x then t.weight / tasks_gcd ts.tasks else 0)
    ts.tasks ⟨[], [], [], [], [], []⟩
  have hgseq : seqSum
      (fun t => if t.tasks_index = x then t.weight / tasks_gcd ts.tasks else 0)
      (group_tasks ts.tasks).sequenced_tasks =
      listSum (fun t => if 0 < t.sequence ∧ t.on_start = false ∧ t.on_stop = false
        then (if t.tasks_index = x then t.weight / tasks_gcd ts.tasks else 0) else 0)
        ts.tasks := by
    have := hg.2.2.1
    simpa [group_tasks, seqSum, listSum] using this
  have hguns : listSum
      (fun t => if t.tasks_index = x then t.weight / tasks_gcd ts.tasks else 0)
      (group_tasks ts.tasks).unsequenced_tasks =
      listSum (fun t => if t.sequence = 0 ∧ t.on_start = false ∧ t.on_stop = false
        then (if t.tasks_index = x then t.weight / tasks_gcd ts.tasks else 0) else 0)
        ts.tasks := by
    have := hg.2.2.2.2.2
    simpa [group_tasks, seqSum, listSum] using this
  have hexact : sched = SwanlingScheduler.Serial ∨ sched = SwanlingScheduler.Random →
      ((schedule_sequenced_tasks sh
          (weight_sequenced_tasks (group_tasks ts.tasks).sequenced_tasks
            (tasks_gcd ts.tasks)) sched ++
        schedule_unsequenced_tasks sh
          (weight_unsequenced_tasks (group_tasks ts.tasks).unsequenced_tasks
            (tasks_gcd ts.tasks)).1
          (weight_unsequenced_tasks (group_tasks ts.tasks).unsequenced_tasks
            (tasks_gcd ts.tasks)).2 sched).count x) =
      listSum (fun t => if (t.on_start = false ∧ t.on_stop = false) ∧ t.tasks_index = x
        then t.weight / tasks_gcd ts.tasks else 0) ts.tasks := by
    intro hs
    rw [category_count_exact sh hsh sched hs (tasks_gcd ts.tasks) x _ _]
    rw [hgseq, hguns, ← listSum_add]
    exact listSum_congr (fun t _ =>
      indicator_combine (fun t => t.on_start = false ∧ t.on_stop = false) x
        (tasks_gcd ts.tasks) t)
  rcases hsched with hs | hs | hall
  · exact hexact (Or.inl hs)
  · exact hexact (Or.inr hs)
  · cases sched with
    | Serial => exact hexact (Or.inl rfl)
    | Random => exact hexact (Or.inr rfl)
    | RoundRobin =>
      have hnil := group_foldl_seq_nil ts.tasks ⟨[], [], [], [], [], []⟩ hall
      have hnil1 : (group_tasks ts.tasks).sequenced_tasks = [] := by
        simpa [group_tasks] using hnil.1
      rw [hnil1]
      rw [category_count_rr sh (tasks_gcd ts.tasks) x _]
      rw [hguns]
      exact listSum_congr (fun t ht =>
        indicator_unseq_only (fun t => t.on_start = false ∧ t.on_stop = false) x
          (tasks_gcd ts.tasks) t (hall t ht))

theorem allocate_tasks_count_stop (sh : List Nat → List Nat)
    (hsh : ∀ (l : List Nat) (x : Nat), List.count x (sh l) = List.count x l)
    (ts : SwanlingTaskSet) (sched : SwanlingScheduler) (x : Nat)
    (hsched : sched = SwanlingScheduler.Serial ∨ sched = SwanlingScheduler.Random ∨
      ∀ s ∈ ts.tasks, s.sequence = 0) :
    ((allocate_tasks sh ts sched).2.2.map Prod.fst).count x =
      listSum (fun t => if t.on_stop = true ∧ t.tasks_index = x
        then t.weight / tasks_gcd ts.tasks else 0) ts.tasks := by
  have hshape := (allocate_tasks_map_fst sh ts sched).2.2
  rw [hshape]
  have hg := group_foldl_sums
    (fun t => if t.tasks_index = x then t.weight / tasks_gcd ts.tasks else 0)
    ts.tasks ⟨[], [], [], [], [], []⟩
  have hgseq : seqSum
      (fun t => if t.tasks_index = x then t.weight / tasks_gcd ts.tasks else 0)
      (group_tasks ts.tasks).sequenced_on_stop_tasks =
      listSum (fun t => if 0 < t.sequence ∧ t.on_stop = true
        then (if t.tasks_index = x then t.weight / tasks_gcd ts.tasks else 0) else 0)
        ts.tasks := by
    have := hg.2.1
    simpa [group_tasks, seqSum, listSum] using this
  have hguns : listSum
      (fun t => if t.tasks_index = x then t.weight / tasks_gcd ts.tasks else 0)
      (group_tasks ts.tasks).unsequenced_on_stop_tasks =
      listSum (fun t => if t.sequence = 0 ∧ t.on_stop = true
        then (if t.tasks_index = x then t.weight / tasks_gcd ts.tasks else 0) else 0)
        ts.tasks := by
    have := hg.2.2.2.2.1
    simpa [group_tasks, seqSum, listSum] using this
  have hexact : sched = SwanlingScheduler.Serial ∨ sched = SwanlingScheduler.Random →
      ((schedule_sequenced_tasks sh
          (weight_sequenced_tasks (group_tasks ts.tasks).sequenced_on_stop_tasks
            (tasks_gcd ts.tasks)) sched ++
        schedule_unsequenced_tasks sh
          (weight_unsequenced_tasks (group_tasks ts.tasks).unsequenced_on_stop_tasks
            (tasks_gcd ts.tasks)).1
          (weight_unsequenced_tasks (group_tasks ts.tasks).unsequenced_on_stop_tasks
            (tasks_gcd ts.tasks)).2 sched).count x) =
      listSum (fun t => if t.on_stop = true ∧ t.tasks_index = x
        then t.weight / tasks_gcd ts.tasks else 0) ts.tasks := by
    intro hs
    rw [category_count_exact sh hsh sched hs (tasks_gcd ts.tasks) x _ _]
    rw [hgseq, hguns, ← listSum_add]
    exact listSum_congr (fun t _ =>
      indicator_combine (fun t => t.on_stop = true) x (tasks_gcd ts.tasks) t)
  rcases hsched with hs | hs | hall
  · exact hexact (Or.inl hs)
  · exact hexact (Or.inr hs)
  · cases sched with
    | Serial => exact hexact (Or.inl rfl)
    | Random => exact hexact (Or.inr rfl)
    | RoundRobin =>
      have hnil := group_foldl_seq_nil ts.tasks ⟨[], [], [], [], [], []⟩ hall
      have hnil1 : (group_tasks ts.tasks).sequenced_on_stop_tasks = [] := by
        simpa [group_tasks] using hnil.2.2
      rw [hnil1]
      rw [category_count_rr sh (tasks_gcd ts.tasks) x _]
      rw [hguns]
      exact listSum_congr (fun t ht =>
        indicator_unseq_only (fun t => t.on_stop = true) x (tasks_gcd ts.tasks) t (hall t ht))

theorem category_count_le (sh : List Nat → List Nat)
    (hsh : ∀ (l : List Nat) (x : Nat), List.count x (sh l) = List.count x l)
    (sched : SwanlingScheduler) (u x : Nat)
    (seqGroups : List (Nat × List SwanlingTask)) (unseqTasks : List SwanlingTask) :
    List.count x
        (schedule_sequenced_tasks sh (weight_sequenced_tasks seqGroups u) sched ++
          schedule_unsequenced_tasks sh (weight_unsequenced_tasks unseqTasks u).1
            (weight_unsequenced_tasks unseqTasks u).2 sched) ≤
      seqSum (fun t => if t.tasks_index = x then t.weight / u else 0) seqGroups +
        listSum (fun t => if t.tasks_index = x then t.weight / u else 0) unseqTasks := by
  rw [List.count_append]
  have hseq : List.count x
      (schedule_sequenced_tasks sh (weight_sequenced_tasks seqGroups u) sched) ≤
      seqSum (fun t => if t.tasks_index = x then t.weight / u else 0) seqGroups := by
    unfold schedule_sequenced_tasks
    have := schedule_sequenced_count_le sh hsh sched x (weight_sequenced_tasks seqGroups u) []
    rw [weight_sequenced_count] at this
    simpa using this
  have huns : List.count x
      (schedule_unsequenced_tasks sh (weight_unsequenced_tasks unseqTasks u).1
        (weight_unsequenced_tasks unseqTasks u).2 sched) ≤
      listSum (fun t => if t.tasks_index = x then t.weight / u else 0) unseqTasks := by
    have := schedule_unsequenced_count_le sh hsh (weight_unsequenced_tasks unseqTasks u).1
      (weight_unsequenced_tasks unseqTasks u).2 sched x
    rw [weight_unsequenced_tasks_spec] at this
    simp only at this
    rw [bucketsCount_weight] at this
    rw [weight_unsequenced_tasks_spec]
    exact this
  omega

theorem allocate_tasks_le_start (sh : List Nat → List Nat)
    (hsh : ∀ (l : List Nat) (x : Nat), List.count x (sh l) = List.count x l)
    (ts : SwanlingTaskSet) (sched : SwanlingScheduler) (x : Nat) :
    ((allocate_tasks sh ts sched).1.map Prod.fst).count x ≤
      listSum (fun t => if t.on_start = true ∧ t.tasks_index = x
        then t.weight / tasks_gcd ts.tasks else 0) ts.tasks := by
  have hshape := (allocate_tasks_map_fst sh ts sched).1
  rw [hshape]
  have hg := group_foldl_sums
    (fun t => if t.tasks_index = x then t.weight / tasks_gcd ts.tasks else 0)
    ts.tasks ⟨[], [], [], [], [], []⟩
  have hle := category_count_le sh hsh sched (tasks_gcd ts.tasks) x
    (group_tasks ts.tasks).sequenced_on_start_tasks
    (group_tasks ts.tasks).unsequenced_on_start_tasks
  have hgseq := hg.1
  have hguns := hg.2.2.2.1
  simp only [group_tasks] at hle ⊢
  rw [hgseq, hguns] at hle
  have hcomb := listSum_congr (l := ts.tasks) (fun t _ =>
    indicator_combine (fun t => t.on_start = true) x (tasks_gcd ts.tasks) t)
  rw [listSum_add] at hcomb
  simp only [seqSum, listSum, List.map_nil, List.sum_nil] at hle hcomb ⊢
  omega

theorem allocate_tasks_le_main (sh : List Nat → List Nat)
    (hsh : ∀ (l : List Nat) (x : Nat), List.count x (sh l) = List.count x l)
    (ts : SwanlingTaskSet) (sched : SwanlingScheduler) (x : Nat) :
    ((allocate_tasks sh ts sched).2.1.map Prod.fst).count x ≤
      listSum (fun t => if (t.on_start = false ∧ t.on_stop = false) ∧ t.tasks_index = x
        then t.weight / tasks_gcd ts.tasks else 0) ts.tasks := by
  have hshape := (allocate_tasks_map_fst sh ts sched).2.1
  rw [hshape]
  have hg := group_foldl_sums
    (fun t => if t.tasks_index = x then t.weight / tasks_gcd ts.tasks else 0)
    ts.tasks ⟨[], [], [], [], [], []⟩
  have hle := category_count_le sh hsh sched (tasks_gcd ts.tasks) x
    (group_tasks ts.tasks).sequenced_tasks
    (group_tasks ts.tasks).unsequenced_tasks
  have hgseq := hg.2.2.1
  have hguns := hg.2.2.2.2.2
  simp only [group_tasks] at hle ⊢
  rw [hgseq, hguns] at hle
  have hcomb := listSum_congr (l := ts.tasks) (fun t _ =>
    indicator_combine (fun t => t.on_start = false ∧ t.on_stop = false) x
      (tasks_gcd ts.tasks) t)
  rw [listSum_add] at hcomb
  simp only [seqSum, listSum, List.map_nil, List.sum_nil] at hle hcomb ⊢
  omega

theorem allocate_tasks_le_stop (sh : List Nat → List Nat)
    (hsh : ∀ (l : List Nat) (x : Nat), List.count x (sh l) = List.count x l)
    (ts : SwanlingTaskSet) (sched : SwanlingScheduler) (x : Nat) :
    ((allocate_tasks sh ts sched).2.2.map Prod.fst).count x ≤
      listSum (fun t => if t.on_stop = true ∧ t.tasks_index = x
        then t.weight / tasks_gcd ts.tasks else 0) ts.tasks := by
  have hshape := (allocate_tasks_map_fst sh ts sched).2.2
  rw [hshape]
  have hg := group_foldl_sums
    (fun t => if t.tasks_index = x then t.weight / tasks_gcd ts.tasks else 0)
    ts.tasks ⟨[], [], [], [], [], []⟩
  have hle := category_count_le sh hsh sched (tasks_gcd ts.tasks) x
    (group_tasks ts.tasks).sequenced_on_stop_tasks
    (group_tasks ts.tasks).unsequenced_on_stop_tasks
  have hgseq := hg.2.1
  have hguns := hg.2.2.2.2.1
  simp only [group_tasks] at hle ⊢
  rw [hgseq, hguns] at hle
  have hcomb := listSum_congr (l := ts.tasks) (fun t _ =>
    indicator_combine (fun t => t.on_stop = true) x (tasks_gcd ts.tasks) t)
  rw [listSum_add] at hcomb
  simp only [seqSum, listSum, List.map_nil, List.sum_nil] at hle hcomb ⊢
  omega

/-! Helper lemmas about the throttle prefill and the user sleep loop. -/

theorem prefill_loop_spec :
    ∀ (k : Nat) (c : BoundedChannel), c.queue.length + k ≤ c.capacity →
      prefill_loop c k = { c with queue := c.queue ++ List.replicate k true }
  | 0, c, _ => by simp [prefill_loop]
  | k + 1, c, h => by
    unfold prefill_loop
    have hlt : c.queue.length < c.capacity := by omega
    have hsend : send_async c true = { c with queue := c.queue ++ [true] } := by
      simp [send_async, hlt]
    rw [hsend]
    rw [prefill_loop_spec k _ (by simp; omega)]
    simp [List.replicate_succ]

theorem sleep_loop_no_exit (max_wait : Nat) (hmax : 0 < max_wait) :
    ∀ (fuel wait_time slept : Nat) (pending : List (List SwanlingUserCommand)),
      (∀ b ∈ pending, drain_messages b = false) →
      slept + fuel = wait_time + 1 →
      sleep_loop fuel max_wait wait_time slept pending = (false, wait_time + 1)
  | 0, wait_time, slept, pending, _, hf => by
    simp [sleep_loop]; omega
  | fuel + 1, wait_time, slept, pending, hp, hf => by
    unfold sleep_loop
    have hd : drain_messages (pending.headD []) = false := by
      cases pending with
      | nil => rfl
      | cons b rest => exact hp b (List.mem_cons_self b rest)
    rw [hd]
    simp only [if_false, Bool.false_eq_true]
    rw [if_pos hmax]
    by_cases hw : wait_time < slept + 1
    · rw [if_pos hw]
      have : slept = wait_time := by omega
      subst this
      have : fuel = 0 := by omega
      simp [this] at hf ⊢
    · rw [if_neg hw]
      exact sleep_loop_no_exit max_wait hmax fuel wait_time (slept + 1) pending.tail
        (fun b hb => hp b (List.mem_of_mem_tail hb)) (by omega)

/-! The claim theorems. -/

/-- C1 (amended). For every task set with pairwise-distinct task indices,
under the Serial or Random scheduler — and under RoundRobin when no task
is sequenced — each of the three lists produced by allocate_tasks
contains every eligible task exactly weight(t) / g times, where g is the
gcd of all task weights of the set: a task appears in the on_start
(resp. on_stop) list exactly weight/g times when its flag is set, in the
main list exactly weight/g times when neither flag is set, and 0 times
where it is not eligible. (As stated, with RoundRobin over a sequenced
group, the claim fails: the group is truncated at the reduced weight of
its first task — see the counterexample.) -/
theorem allocate_tasks_reduced_weight_multiplicity
    (sh : List Nat → List Nat)
    (hsh : ∀ (l : List Nat) (x : Nat), List.count x (sh l) = List.count x l)
    (ts : SwanlingTaskSet) (sched : SwanlingScheduler)
    (hdist : ts.tasks.Pairwise (fun a b => a.tasks_index ≠ b.tasks_index))
    (hsched : sched = SwanlingScheduler.Serial ∨ sched = SwanlingScheduler.Random ∨
      ∀ s ∈ ts.tasks, s.sequence = 0)
    (t : SwanlingTask) (ht : t ∈ ts.tasks) :
    ((allocate_tasks sh ts sched).1.map Prod.fst).count t.tasks_index =
      (if t.on_start = true then t.weight / tasks_gcd ts.tasks else 0) ∧
    ((allocate_tasks sh ts sched).2.1.map Prod.fst).count t.tasks_index =
      (if t.on_start = false ∧ t.on_stop = false then t.weight / tasks_gcd ts.tasks
        else 0) ∧
    ((allocate_tasks sh ts sched).2.2.map Prod.fst).count t.tasks_index =
      (if t.on_stop = true then t.weight / tasks_gcd ts.tasks else 0) := by
  have h1 := allocate_tasks_count_start sh hsh ts sched t.tasks_index hsched
  have h2 := allocate_tasks_count_main sh hsh ts sched t.tasks_index hsched
  have h3 := allocate_tasks_count_stop sh hsh ts sched t.tasks_index hsched
  rw [listSum_single (fun s => s.on_start = true)
    (fun s => s.weight / tasks_gcd ts.tasks) t ts.tasks hdist ht] at h1
  rw [listSum_single (fun s => s.on_start = false ∧ s.on_stop = false)
    (fun s => s.weight / tasks_gcd ts.tasks) t ts.tasks hdist ht] at h2
  rw [listSum_single (fun s => s.on_stop = true)
    (fun s => s.weight / tasks_gcd ts.tasks) t ts.tasks hdist ht] at h3
  exact ⟨h1, h2, h3⟩

/-- C1 counterexample. Two main tasks share sequence 1 with weights 2 and
1 (gcd 1); under the RoundRobin scheduler the main list contains the
weight-2 task only once, not weight/g = 2 times, because the round-robin
loop over a sequence group stops at the length of the group's first
bucket. This truncation is the behaviour the repository's own
tests/sequence.rs asserts. -/
theorem allocate_tasks_roundrobin_sequenced_truncation :
    ¬ (((allocate_tasks id example_sequenced_set
          SwanlingScheduler.RoundRobin).2.1.map Prod.fst).count
            example_task_one.tasks_index =
        example_task_one.weight / tasks_gcd example_sequenced_set.tasks) ∧
    ((allocate_tasks id example_sequenced_set
        SwanlingScheduler.RoundRobin).2.1.map Prod.fst).count
          example_task_one.tasks_index = 1 ∧
    example_task_one.weight / tasks_gcd example_sequenced_set.tasks = 2 := by
  refine ⟨?_, ?_, ?_⟩ <;> decide

/-- C1 witness: the multiplicity theorem applied to the sequenced example
set under the Serial scheduler, where the weight-2 task appears twice. -/
theorem allocate_tasks_reduced_weight_multiplicity_witness :
    ((allocate_tasks id example_sequenced_set SwanlingScheduler.Serial).2.1.map
        Prod.fst).count example_task_one.tasks_index =
      (if example_task_one.on_start = false ∧ example_task_one.on_stop = false
        then example_task_one.weight / tasks_gcd example_sequenced_set.tasks else 0) :=
  (allocate_tasks_reduced_weight_multiplicity id (fun _ _ => rfl)
    example_sequenced_set SwanlingScheduler.Serial (by decide) (Or.inl rfl)
    example_task_one (by decide)).2.1

/-- C2. With task sets A (weight 5) and B (weight 3), the round-robin
scheduler and users = 20, weight_task_set_users produces exactly 20
users, the first 8 allocated A,B,A,B,A,B,A,A and the next 8 repeating the
same pattern. -/
theorem weight_task_set_users_roundrobin_pattern :
    (weight_task_set_users (fun _ => none) [example_set_a, example_set_b]
        SwanlingScheduler.RoundRobin 20).length = 20 ∧
    ((weight_task_set_users (fun _ => none) [example_set_a, example_set_b]
        SwanlingScheduler.RoundRobin 20).map SwanlingUser.task_sets_index).take 8 =
      [0, 1, 0, 1, 0, 1, 0, 0] ∧
    (((weight_task_set_users (fun _ => none) [example_set_a, example_set_b]
        SwanlingScheduler.RoundRobin 20).map SwanlingUser.task_sets_index).drop 8).take 8 =
      [0, 1, 0, 1, 0, 1, 0, 0] := by
  decide

/-- C3 (amended). For a user with max_wait > 0, the wait time drawn in
the main loop ranges over the half-open interval min_wait ≤ w < max_wait
(not the closed interval: max_wait itself is never drawn); the sleep is
interruptible at 1-second granularity: each loop iteration first drains
the command channel and an Exit breaks out of the main loop immediately,
while in the absence of Exit the user sleeps wait_time + 1 whole
seconds. -/
theorem user_wait_time_halfopen_and_interruptible (u : SwanlingUser)
    (hmax : 0 < u.max_wait) :
    (∀ w, user_wait_time_possible u w ↔ (u.min_wait ≤ w ∧ w < u.max_wait)) ∧
    (∀ (wait_time : Nat) (pending : List (List SwanlingUserCommand)),
      drain_messages (pending.headD []) = true →
      sleep_loop (wait_time + 1) u.max_wait wait_time 0 pending = (true, 0)) ∧
    (∀ (wait_time : Nat) (pending : List (List SwanlingUserCommand)),
      (∀ b ∈ pending, drain_messages b = false) →
      sleep_loop (wait_time + 1) u.max_wait wait_time 0 pending =
        (false, wait_time + 1)) := by
  refine ⟨?_, ?_, ?_⟩
  · intro w
    unfold user_wait_time_possible gen_range_possible
    rw [if_pos hmax]
  · intro wait_time pending h
    unfold sleep_loop
    rw [h]
    simp
  · intro wait_time pending h
    exact sleep_loop_no_exit u.max_wait hmax (wait_time + 1) wait_time 0 pending h
      (by omega)

/-- C3 counterexample. For min_wait = 3, max_wait = 5, the value 5 lies
in the claimed closed interval but is not a possible wait time (the draw
is over the half-open range 3..5), while 3 and 4 are possible. -/
theorem user_wait_time_closed_interval_refuted :
    ¬ user_wait_time_possible
        { task_sets_index := 0, min_wait := 3, max_wait := 5 } 5 ∧
    user_wait_time_possible { task_sets_index := 0, min_wait := 3, max_wait := 5 } 3 ∧
    user_wait_time_possible { task_sets_index := 0, min_wait := 3, max_wait := 5 } 4 := by
  refine ⟨?_, ?_, ?_⟩ <;> decide

/-- C3 witness: the half-open/interruptible theorem applied to a user
with min_wait = 1, max_wait = 3 and wait_time = 2. -/
theorem user_wait_time_halfopen_and_interruptible_witness :
    (user_wait_time_possible { task_sets_index := 0, min_wait := 1, max_wait := 3 } 2 ↔
      (1 ≤ 2 ∧ 2 < 3)) ∧
    sleep_loop 3 3 2 0 [[SwanlingUserCommand.Exit]] = (true, 0) ∧
    sleep_loop 3 3 2 0 [] = (false, 3) :=
  ⟨(user_wait_time_halfopen_and_interruptible
      { task_sets_index := 0, min_wait := 1, max_wait := 3 } (by decide)).1 2,
   (user_wait_time_halfopen_and_interruptible
      { task_sets_index := 0, min_wait := 1, max_wait := 3 } (by decide)).2.1 2
     [[SwanlingUserCommand.Exit]] rfl,
   (user_wait_time_halfopen_and_interruptible
      { task_sets_index := 0, min_wait := 1, max_wait := 3 } (by decide)).2.2 2 []
     (by intro b hb; cases hb)⟩

/-- C4. A controller stop request in phase Starting or Running sets
shutdown_after_stop to false, no_autostart to true, moves the phase to
Stopping and replies success; in every other phase it replies failure and
leaves the whole state unchanged. -/
theorem handle_stop_request_spec (s : SupervisorState) :
    handle_stop_request s =
      (if s.attack_phase = AttackPhase.Starting ∨ s.attack_phase = AttackPhase.Running then
        ({ attack_phase := AttackPhase.Stopping, shutdown_after_stop := false,
           no_autostart := true }, true)
      else (s, false)) := by
  cases s with
  | mk p b1 b2 => cases p <;> simp [handle_stop_request, set_attack_phase]

/-- C5. With throttle_requests = N ≥ 1, setup_throttle returns a bounded
channel of capacity exactly N pre-filled with exactly N - 1 tokens; with
throttle_requests = 0 it returns no channel. -/
theorem setup_throttle_spec (N : Nat) :
    (1 ≤ N → ∃ c, setup_throttle N = some c ∧ c.capacity = N ∧
      c.queue.length = N - 1) ∧
    (N = 0 → setup_throttle N = none) := by
  constructor
  · intro h
    refine ⟨{ capacity := N, queue := List.replicate (N - 1) true }, ?_, rfl, by simp⟩
    unfold setup_throttle
    rw [if_neg (by omega)]
    show some (prefill_loop (flume_bounded N) (N - 1)) = _
    rw [prefill_loop_spec (N - 1) (flume_bounded N) (by simp [flume_bounded])]
    simp [flume_bounded]
  · intro h; subst h; rfl

/-- C5 witness: setup_throttle at N = 4 yields capacity 4 and 3 queued
tokens, and at N = 0 yields no channel. -/
theorem setup_throttle_spec_witness :
    (∃ c, setup_throttle 4 = some c ∧ c.capacity = 4 ∧ c.queue.length = 3) ∧
    setup_throttle 0 = none :=
  ⟨(setup_throttle_spec 4).1 (by decide), (setup_throttle_spec 0).2 rfl⟩

/-- C6. In standalone mode, set_coordinated_omission rejects with the
typed InvalidOption error exactly the configurations combining the
(effective) mitigation setting with no_metrics, or an effective strategy
other than Disabled with the Random scheduler; every other standalone
configuration is accepted, with the effective strategy stored back. -/
theorem set_coordinated_omission_standalone_spec
    (co dco : Option SwanlingCoordinatedOmissionMitigation)
    (nm : Bool) (sch : SwanlingScheduler) :
    set_coordinated_omission co dco AttackMode.StandAlone nm sch =
      (if nm = true ∨ (effective_co co dco ≠ SwanlingCoordinatedOmissionMitigation.Disabled ∧
          sch = SwanlingScheduler.Random) then
        Except.error SwanlingErrorKind.InvalidOption
      else Except.ok (some (effective_co co dco))) := by
  rcases co with _ | c <;> rcases dco with _ | d <;> cases nm <;> cases sch <;>
    first
      | rfl
      | (cases c <;> rfl)
      | (cases d <;> rfl)

/-- C7 (amended). For every task set with pairwise-distinct task indices
and every scheduler, a task with on_start or on_stop set never appears in
the main weighted task list, and a task with neither flag never appears
in the on_start or on_stop lists; under the Serial or Random scheduler a
flagged task appears in the corresponding flagged lists exactly
weight / g times (with RoundRobin over a sequenced group the count can be
smaller — see the counterexample). -/
theorem flagged_tasks_placement
    (sh : List Nat → List Nat)
    (hsh : ∀ (l : List Nat) (x : Nat), List.count x (sh l) = List.count x l)
    (ts : SwanlingTaskSet) (sched : SwanlingScheduler)
    (hdist : ts.tasks.Pairwise (fun a b => a.tasks_index ≠ b.tasks_index))
    (t : SwanlingTask) (ht : t ∈ ts.tasks) :
    ((t.on_start = true ∨ t.on_stop = true) →
      t.tasks_index ∉ (allocate_tasks sh ts sched).2.1.map Prod.fst) ∧
    (t.on_start = false ∧ t.on_stop = false →
      t.tasks_index ∉ (allocate_tasks sh ts sched).1.map Prod.fst ∧
      t.tasks_index ∉ (allocate_tasks sh ts sched).2.2.map Prod.fst) ∧
    ((sched = SwanlingScheduler.Serial ∨ sched = SwanlingScheduler.Random) →
      ((allocate_tasks sh ts sched).1.map Prod.fst).count t.tasks_index =
        (if t.on_start = true then t.weight / tasks_gcd ts.tasks else 0) ∧
      ((allocate_tasks sh ts sched).2.2.map Prod.fst).count t.tasks_index =
        (if t.on_stop = true then t.weight / tasks_gcd ts.tasks else 0)) := by
  have hstart := allocate_tasks_le_start sh hsh ts sched t.tasks_index
  have hmain := allocate_tasks_le_main sh hsh ts sched t.tasks_index
  have hstop := allocate_tasks_le_stop sh hsh ts sched t.tasks_index
  rw [listSum_single (fun s => s.on_start = true)
    (fun s => s.weight / tasks_gcd ts.tasks) t ts.tasks hdist ht] at hstart
  rw [listSum_single (fun s => s.on_start = false ∧ s.on_stop = false)
    (fun s => s.weight / tasks_gcd ts.tasks) t ts.tasks hdist ht] at hmain
  rw [listSum_single (fun s => s.on_stop = true)
    (fun s => s.weight / tasks_gcd ts.tasks) t ts.tasks hdist ht] at hstop
  refine ⟨?_, ?_, ?_⟩
  · intro hflag
    have hz : (if t.on_start = false ∧ t.on_stop = false
        then t.weight / tasks_gcd ts.tasks else 0) = 0 := by
      rcases hflag with h | h <;> simp [h]
    rw [hz] at hmain
    exact List.count_eq_zero.mp (Nat.le_zero.mp hmain)
  · rintro ⟨h1, h2⟩
    constructor
    · have hz : (if t.on_start = true then t.weight / tasks_gcd ts.tasks else 0) = 0 := by
        simp [h1]
      rw [hz] at hstart
      exact List.count_eq_zero.mp (Nat.le_zero.mp hstart)
    · have hz : (if t.on_stop = true then t.weight / tasks_gcd ts.tasks else 0) = 0 := by
        simp [h2]
      rw [hz] at hstop
      exact List.count_eq_zero.mp (Nat.le_zero.mp hstop)
  · intro hs
    have hsched : sched = SwanlingScheduler.Serial ∨ sched = SwanlingScheduler.Random ∨
        ∀ s ∈ ts.tasks, s.sequence = 0 := hs.elim Or.inl (fun h => Or.inr (Or.inl h))
    have h1 := allocate_tasks_count_start sh hsh ts sched t.tasks_index hsched
    have h3 := allocate_tasks_count_stop sh hsh ts sched t.tasks_index hsched
    rw [listSum_single (fun s => s.on_start = true)
      (fun s => s.weight / tasks_gcd ts.tasks) t ts.tasks hdist ht] at h1
    rw [listSum_single (fun s => s.on_stop = true)
      (fun s => s.weight / tasks_gcd ts.tasks) t ts.tasks hdist ht] at h3
    exact ⟨h1, h3⟩

/-- C7 counterexample. Two on_start tasks share sequence 1 with weights 2
and 1 (gcd 1); under RoundRobin the weight-2 task appears in the
weighted_on_start list only once, not once per reduced weight (2). -/
theorem flagged_tasks_roundrobin_sequenced_truncation :
    ¬ (((allocate_tasks id example_seq_start_set
          SwanlingScheduler.RoundRobin).1.map Prod.fst).count
            example_seq_start_one.tasks_index =
        example_seq_start_one.weight / tasks_gcd example_seq_start_set.tasks) ∧
    ((allocate_tasks id example_seq_start_set
        SwanlingScheduler.RoundRobin).1.map Prod.fst).count
          example_seq_start_one.tasks_index = 1 ∧
    example_seq_start_one.weight / tasks_gcd example_seq_start_set.tasks = 2 := by
  refine ⟨?_, ?_, ?_⟩ <;> decide

/-- C7 witness: in the mixed example set under Serial scheduling, the
on_start task is absent from the main list and appears once in the
on_start list. -/
theorem flagged_tasks_placement_witness :
    (0 ∉ (allocate_tasks id example_flagged_set
      SwanlingScheduler.Serial).2.1.map Prod.fst) ∧
    ((allocate_tasks id example_flagged_set SwanlingScheduler.Serial).1.map
        Prod.fst).count example_start_task.tasks_index =
      (if example_start_task.on_start = true
        then example_start_task.weight / tasks_gcd example_flagged_set.tasks else 0) :=
  ⟨(flagged_tasks_placement id (fun _ _ => rfl) example_flagged_set
      SwanlingScheduler.Serial (by decide) example_start_task (by decide)).1
        (Or.inl rfl),
   ((flagged_tasks_placement id (fun _ _ => rfl) example_flagged_set
      SwanlingScheduler.Serial (by decide) example_start_task (by decide)).2.2
        (Or.inl rfl)).1⟩

/-- C8. The wait-time draw in the user main loop is total exactly when
max_wait = 0 or min_wait < max_wait: it panics (empty gen_range range)
for every user with max_wait > 0 and min_wait ≥ max_wait, in particular
at min_wait = max_wait = 5, even though the spec permits min = max. -/
theorem user_wait_time_panics_iff :
    (∀ u : SwanlingUser,
      user_wait_time_panics u ↔ ¬ (u.max_wait = 0 ∨ u.min_wait < u.max_wait)) ∧
    user_wait_time_panics { task_sets_index := 0, min_wait := 5, max_wait := 5 } := by
  constructor
  · intro u
    unfold user_wait_time_panics gen_range_empty
    omega
  · exact ⟨by decide, by decide⟩

/-- C9. Both initialize_attack and reset_run_state set the run state's
shutdown_after_stop to the negation of no_autostart; with no_autostart
false, the Stopping phase therefore transitions to Shutdown, while after
a controller stop request (which clears the flag) it returns to Idle. -/
theorem shutdown_after_stop_spec (na : Bool) (rs : SwanlingAttackRunState)
    (s : SupervisorState) :
    (init_attack_run_state na).shutdown_after_stop = !na ∧
    (reset_run_state rs na).shutdown_after_stop = !na ∧
    stopping_next_phase (init_attack_run_state false).shutdown_after_stop =
      AttackPhase.Shutdown ∧
    stopping_next_phase
        (handle_stop_request
          ⟨AttackPhase.Running, s.shutdown_after_stop, s.no_autostart⟩).1.shutdown_after_stop =
      AttackPhase.Idle := by
  refine ⟨rfl, rfl, rfl, ?_⟩
  simp [handle_stop_request, set_attack_phase, stopping_next_phase]

/-- C10 (amended). For every digit string accepted by the users regex
whose value fits in usize, a `users` command handled in the Idle phase
stores the parsed value in configuration.users and replies success; no
lower bound is re-checked on this path (the string "0" is accepted). For
digit strings whose value exceeds `usize::MAX` the `expect` around
`usize::from_str` panics instead — see the counterexample. -/
theorem controller_users_request_spec (usize_max : Nat) (v : List Char)
    (users0 : Option Nat) (h : users_value_matches v = true)
    (hrange : parse_digits v ≤ usize_max) :
    handle_users_request usize_max AttackPhase.Idle users0 (some v) =
      some (some (parse_digits v), some true) := by
  simp [handle_users_request, usize_from_str, hrange]

/-- C10 counterexample. The digit string of twenty-five nines matches the
users regex (which has no length cap), but its value exceeds
`usize::MAX = 2 ^ 64 - 1`, so on a 64-bit target the Users arm panics in
`expect` (modelled as `none`): the value is not stored and no success
reply is sent, refuting the original claim at this digit string. -/
theorem controller_users_overflow_panic :
    users_value_matches (List.replicate 25 (Char.ofNat 57)) = true ∧
    2 ^ 64 - 1 < parse_digits (List.replicate 25 (Char.ofNat 57)) ∧
    handle_users_request (2 ^ 64 - 1) AttackPhase.Idle (some 1)
        (some (List.replicate 25 (Char.ofNat 57))) = none := by
  refine ⟨by decide, by decide, by decide⟩

/-- C10 witness: the digit string "0" matches the regex, fits in usize,
and sets users to 0 with a success reply, demonstrating that the
users ≥ 1 setup constraint is not re-checked. -/
theorem controller_users_request_spec_witness :
    users_value_matches [Char.ofNat 48] = true ∧
    handle_users_request (2 ^ 64 - 1) AttackPhase.Idle (some 1)
        (some [Char.ofNat 48]) = some (some 0, some true) :=
  ⟨by decide, controller_users_request_spec (2 ^ 64 - 1) [Char.ofNat 48] (some 1)
    (by decide) (by decide)⟩
